import Mathlib

/-!
# Healthcare survey: response aggregation and chart-data derivation

A shallow embedding of the aggregation core of `src/app.js` (class `HealthcareSurvey3D`):
`loadSurveyData`, `saveSurveyData`, `handleFormSubmit`, `updateSurveyData`, `drawChart`,
`prepareChartData`, `getChartConfig` and `addSampleData`.

Modelling conventions.

* A table of `surveyData` is the list of its own properties in creation order. The file has
  two layers. On tables of counts (`FrequencyTable`, `updateSurveyData`) a label is an opaque
  key: reading a missing key gives `undefined`, writing an existing key keeps its position,
  writing a new key creates it last. On plain objects (`JsObject`, `Js.updateSurveyData`) a
  read also finds the members inherited from `Object.prototype`, a write to `__proto__` is
  swallowed, values can be the strings a concatenation leaves, and `+ 1` is addition of
  doubles. The two layers agree for labels that are not inherited names and counts below
  `2 ^ 53` (`updateSurveyData_toJs`, `replay_toObject`).
* The arrays `Object.keys` and `Object.entries` list array-index names first, in ascending
  order, then the other names in creation order (`objectEntries`).
* Counts are natural numbers; `totalResponses` is an integer.
* The object `this` is passed explicitly; `console.log` and DOM styling are not modelled.
* The builtins `JSON.stringify`, `JSON.parse` and `localStorage` are modelled as executable
  functions on text, so that saving and loading can be evaluated and reasoned about.
-/

set_option autoImplicit false

/-- The five survey questions: the keys of the `formData` object literal of `handleFormSubmit`
and of every literal in `addSampleData`. -/
inductive QuestionId where
  | age
  | preference
  | concerns
  | remedies
  | exercise
  deriving DecidableEq, Repr

namespace QuestionId

/-- The array `Object.keys(formData)`: the five keys in the order of the object literal. -/
def keys : List QuestionId := [age, preference, concerns, remedies, exercise]

/-- The property name of a question in `surveyData`. -/
def name : QuestionId → String
  | age => "age"
  | preference => "preference"
  | concerns => "concerns"
  | remedies => "remedies"
  | exercise => "exercise"

end QuestionId

/-- One table of `surveyData`: answer label to count, as its own properties in creation
order. -/
abbrev FrequencyTable := List (String × Nat)

/-- The expression `x || 0` for `x` a count or `undefined`: `undefined` and `0` are falsy. -/
def orZero : Option Nat → Nat
  | none => 0
  | some n => if n = 0 then 0 else n

namespace FrequencyTable

/-- Property read `table[label]` of an own property: `none` is `undefined`. The members a
plain object inherits are read by `JsObject.read`. -/
def get : FrequencyTable → String → Option Nat
  | [], _ => none
  | (k, c) :: rest, label => if k = label then some c else get rest label

/-- Property write `table[label] = count`: an existing key keeps its place, a new key is
created last. The write to `__proto__` is the business of `JsObject.write`. -/
def set : FrequencyTable → String → Nat → FrequencyTable
  | [], label, count => [(label, count)]
  | (k, c) :: rest, label, count =>
    if k = label then (k, count) :: rest else (k, c) :: set rest label count

/-- The own property names of a table, in creation order. -/
def keys (table : FrequencyTable) : List String := table.map Prod.fst

/-- The sum of the counts of a table. -/
def total (table : FrequencyTable) : Nat := (table.map Prod.snd).sum

/-- The statement `table[value] = (table[value] || 0) + 1` on a table of counts, exact for a
label that is in the table or is not inherited and for a count below `2 ^ 53`
(`increment_toObject`); `JsObject.increment` is the statement on a plain object. -/
def increment (table : FrequencyTable) (value : String) : FrequencyTable :=
  table.set value (orZero (table.get value) + 1)

end FrequencyTable

/-- The object `surveyData`: five tables and the counter `totalResponses`. -/
structure SurveyData where
  age : FrequencyTable
  preference : FrequencyTable
  concerns : FrequencyTable
  remedies : FrequencyTable
  exercise : FrequencyTable
  totalResponses : Int
  deriving DecidableEq, Repr

namespace SurveyData

/-- Property read `surveyData[key]` for one of the five question keys. -/
def table (surveyData : SurveyData) : QuestionId → FrequencyTable
  | .age => surveyData.age
  | .preference => surveyData.preference
  | .concerns => surveyData.concerns
  | .remedies => surveyData.remedies
  | .exercise => surveyData.exercise

/-- The object `surveyData` after its table `surveyData[key]` was mutated into `table`. -/
def setTable (surveyData : SurveyData) (key : QuestionId) (table : FrequencyTable) : SurveyData :=
  match key with
  | .age => { surveyData with age := table }
  | .preference => { surveyData with preference := table }
  | .concerns => { surveyData with concerns := table }
  | .remedies => { surveyData with remedies := table }
  | .exercise => { surveyData with exercise := table }

end SurveyData

/-- The object `formData`: one label per question. -/
structure Response where
  age : String
  preference : String
  concerns : String
  remedies : String
  exercise : String
  deriving DecidableEq, Repr

namespace Response

/-- Property read `formData[key]`. -/
def get (formData : Response) : QuestionId → String
  | .age => formData.age
  | .preference => formData.preference
  | .concerns => formData.concerns
  | .remedies => formData.remedies
  | .exercise => formData.exercise

/-- The array `Object.values(formData)`. -/
def values (formData : Response) : List String := QuestionId.keys.map formData.get

end Response

/-- The body of the `forEach` callback of `updateSurveyData`:
`this.surveyData[key][value] = (this.surveyData[key][value] || 0) + 1`. -/
def incrementAnswer (formData : Response) (surveyData : SurveyData) (key : QuestionId) :
    SurveyData :=
  let value := formData.get key
  surveyData.setTable key ((surveyData.table key).increment value)

/-- The effect of `updateSurveyData(formData)` on `this.surveyData`, on tables of counts: the
`forEach` over `Object.keys(formData)`, then `this.surveyData.totalResponses++`. The method on
plain objects and doubles is `Js.updateSurveyData`, and `updateSurveyData_toJs` states when
the two agree. -/
def updateSurveyData (surveyData : SurveyData) (formData : Response) : SurveyData :=
  let updated := QuestionId.keys.foldl (incrementAnswer formData) surveyData
  { updated with totalResponses := updated.totalResponses + 1 }

/-- The object literal returned at the end of `loadSurveyData`. -/
def emptySurveyData : SurveyData :=
  { age := [], preference := [], concerns := [], remedies := [], exercise := [],
    totalResponses := 0 }

/-- Calling `updateSurveyData` on each response of a sequence in turn, as the
`sampleResponses.forEach` of `addSampleData` does. -/
def replay (surveyData : SurveyData) (responses : List Response) : SurveyData :=
  responses.foldl updateSurveyData surveyData


/-! ## The platform: JSON text and local storage -/

/-- Modelled from the spec: the values of the serialization format of section 6 ("a JSON object
with fields ... each an object mapping label to integer count"), that is, what the builtin
`JSON.parse` can return. A number is kept exactly as `mantissa * 10 ^ exponent`; an object is
its members in enumeration order. The builtin itself is not code under `src/`. -/
inductive Json where
  | null
  | bool (b : Bool)
  | num (mantissa : Int) (exponent : Int)
  | str (s : String)
  | arr (elems : List Json)
  | obj (members : List (String × Json))
  deriving Repr

namespace JSON

/-- The double quote character. -/
def quote : Char := Char.ofNat 34

/-- The reverse solidus character. -/
def backslash : Char := Char.ofNat 92

/-- The opening curly bracket. -/
def lbrace : Char := Char.ofNat 123

/-- The closing curly bracket. -/
def rbrace : Char := Char.ofNat 125

/-- One lower-case hexadecimal digit. -/
def hexDigit (d : Nat) : Char :=
  if d < 10 then Char.ofNat (48 + d) else Char.ofNat (87 + d)

/-- The escape sequence `JSON.stringify` writes for one character of a string. -/
def escapeChar (c : Char) : List Char :=
  if c = quote then [backslash, quote]
  else if c = backslash then [backslash, backslash]
  else if c = Char.ofNat 8 then [backslash, 'b']
  else if c = Char.ofNat 12 then [backslash, 'f']
  else if c = Char.ofNat 10 then [backslash, 'n']
  else if c = Char.ofNat 13 then [backslash, 'r']
  else if c = Char.ofNat 9 then [backslash, 't']
  else if c.toNat < 32 then
    [backslash, 'u', '0', '0', hexDigit (c.toNat / 16), hexDigit (c.toNat % 16)]
  else [c]

/-- The escaped characters of a string. -/
def escapeChars : List Char → List Char
  | [] => []
  | c :: rest => escapeChar c ++ escapeChars rest

/-- A string literal: the escaped characters between double quotes. -/
def quoteString (s : String) : List Char :=
  quote :: (escapeChars s.toList ++ [quote])

/-- The decimal text of an integer. -/
def intText (n : Int) : List Char :=
  match n with
  | Int.ofNat m => Nat.toDigits 10 m
  | Int.negSucc m => '-' :: Nat.toDigits 10 (m + 1)

mutual
/-- The text `JSON.stringify` writes for a value, without indentation. -/
def render : Json → List Char
  | .null => ['n', 'u', 'l', 'l']
  | .bool true => ['t', 'r', 'u', 'e']
  | .bool false => ['f', 'a', 'l', 's', 'e']
  | .num m e => if e = 0 then intText m else intText m ++ 'e' :: intText e
  | .str s => quoteString s
  | .arr elems => '[' :: (renderElems elems ++ [']'])
  | .obj members => lbrace :: (renderMembers members ++ [rbrace])
/-- The comma-separated elements of an array. -/
def renderElems : List Json → List Char
  | [] => []
  | v :: rest => render v ++ (match rest with | [] => [] | _ :: _ => ',' :: renderElems rest)
/-- The comma-separated members of an object, in enumeration order. -/
def renderMembers : List (String × Json) → List Char
  | [] => []
  | (k, v) :: rest =>
    quoteString k ++
      ':' :: (render v ++ (match rest with | [] => [] | _ :: _ => ',' :: renderMembers rest))
end

/-- Modelled from the spec: "SurveyState serializes to a JSON object" (section 6). The builtin
`JSON.stringify` of the platform, which is not code under `src/`. -/
def stringify (v : Json) : String := String.mk (render v)

/-- The four whitespace characters of the JSON grammar. -/
def isWhitespace (c : Char) : Bool :=
  c = ' ' || c = Char.ofNat 9 || c = Char.ofNat 10 || c = Char.ofNat 13

/-- Dropping leading whitespace. -/
def skipWhitespace : List Char → List Char
  | [] => []
  | c :: rest => if isWhitespace c then skipWhitespace rest else c :: rest

/-- A decimal digit. -/
def isDigit (c : Char) : Bool := decide (48 ≤ c.toNat ∧ c.toNat ≤ 57)

/-- The number written by a sequence of decimal digits. -/
def digitsValue (ds : List Char) : Nat := ds.foldl (fun n c => 10 * n + (c.toNat - 48)) 0

/-- The value of one hexadecimal digit of either case. -/
def hexValue (c : Char) : Option Nat :=
  if 48 ≤ c.toNat ∧ c.toNat ≤ 57 then some (c.toNat - 48)
  else if 97 ≤ c.toNat ∧ c.toNat ≤ 102 then some (c.toNat - 87)
  else if 65 ≤ c.toNat ∧ c.toNat ≤ 70 then some (c.toNat - 55)
  else none

/-- The value of four hexadecimal digits. -/
def hex4 (a b c d : Char) : Option Nat :=
  match hexValue a, hexValue b, hexValue c, hexValue d with
  | some x, some y, some z, some w => some (((x * 16 + y) * 16 + z) * 16 + w)
  | _, _, _, _ => none

/-- The characters of a string literal after its opening quote, up to the closing quote;
`acc` holds the characters read so far, last first. -/
def parseString : List Char → List Char → Option (String × List Char)
  | [], _ => none
  | c :: rest, acc =>
    if c = quote then some (String.mk acc.reverse, rest)
    else if c = backslash then
      match rest with
      | [] => none
      | e :: rest1 =>
        if e = quote then parseString rest1 (quote :: acc)
        else if e = backslash then parseString rest1 (backslash :: acc)
        else if e = '/' then parseString rest1 ('/' :: acc)
        else if e = 'b' then parseString rest1 (Char.ofNat 8 :: acc)
        else if e = 'f' then parseString rest1 (Char.ofNat 12 :: acc)
        else if e = 'n' then parseString rest1 (Char.ofNat 10 :: acc)
        else if e = 'r' then parseString rest1 (Char.ofNat 13 :: acc)
        else if e = 't' then parseString rest1 (Char.ofNat 9 :: acc)
        else if e = 'u' then
          match rest1 with
          | a :: b :: c1 :: d :: rest2 =>
            match hex4 a b c1 d with
            | some n => parseString rest2 (Char.ofNat n :: acc)
            | none => none
          | _ => none
        else none
    else if c.toNat < 32 then none
    else parseString rest (c :: acc)

/-- The number grammar: an optional minus sign, an integer part without leading zero, an
optional fraction and an optional exponent. -/
def parseNumber (cs : List Char) : Option (Json × List Char) :=
  let negative := cs.head? = some '-'
  let cs1 := if negative then cs.tail else cs
  let intDigits := cs1.takeWhile isDigit
  let cs2 := cs1.dropWhile isDigit
  if intDigits = [] ∨ (intDigits.head? = some '0' ∧ intDigits.length ≠ 1) then none
  else
    let fracDigits := if cs2.head? = some '.' then cs2.tail.takeWhile isDigit else []
    let cs3 := if cs2.head? = some '.' then cs2.tail.dropWhile isDigit else cs2
    if cs2.head? = some '.' ∧ fracDigits = [] then none
    else
      let hasExp := cs3.head? = some 'e' ∨ cs3.head? = some 'E'
      let cs4 := if hasExp then cs3.tail else cs3
      let expNegative := hasExp ∧ cs4.head? = some '-'
      let cs5 :=
        if hasExp ∧ (cs4.head? = some '-' ∨ cs4.head? = some '+') then cs4.tail else cs4
      let expDigits := if hasExp then cs5.takeWhile isDigit else []
      let cs6 := if hasExp then cs5.dropWhile isDigit else cs5
      if hasExp ∧ expDigits = [] then none
      else
        let magnitude : Int := digitsValue (intDigits ++ fracDigits)
        let exponent : Int := digitsValue expDigits
        some (Json.num (if negative then - magnitude else magnitude)
          ((if expNegative then - exponent else exponent) - fracDigits.length), cs6)

/-- One of the literal words `null`, `true`, `false`. -/
def expect (word : List Char) (v : Json) (cs : List Char) : Option (Json × List Char) :=
  if word.isPrefixOf cs then some (v, cs.drop word.length) else none

/-- Property write on the object under construction: a repeated key keeps its place and takes
the later value. -/
def setMember : List (String × Json) → String → Json → List (String × Json)
  | [], key, v => [(key, v)]
  | (k, w) :: rest, key, v => if k = key then (k, v) :: rest else (k, w) :: setMember rest key v

/-- The elements of a non-empty array after its opening bracket. -/
def parseElements (parseValue : List Char → Option (Json × List Char)) :
    Nat → List Json → List Char → Option (Json × List Char)
  | 0, _, _ => none
  | fuel + 1, acc, cs =>
    match parseValue cs with
    | none => none
    | some (v, rest) =>
      match skipWhitespace rest with
      | c :: rest1 =>
        if c = ',' then parseElements parseValue fuel (v :: acc) rest1
        else if c = ']' then some (Json.arr (v :: acc).reverse, rest1)
        else none
      | [] => none

/-- The members of a non-empty object after its opening bracket. -/
def parseMembers (parseValue : List Char → Option (Json × List Char)) :
    Nat → List (String × Json) → List Char → Option (Json × List Char)
  | 0, _, _ => none
  | fuel + 1, acc, cs =>
    match skipWhitespace cs with
    | c :: rest =>
      if c = quote then
        match parseString rest [] with
        | none => none
        | some (key, rest1) =>
          match skipWhitespace rest1 with
          | c1 :: rest2 =>
            if c1 = ':' then
              match parseValue rest2 with
              | none => none
              | some (v, rest3) =>
                match skipWhitespace rest3 with
                | c2 :: rest4 =>
                  if c2 = ',' then parseMembers parseValue fuel (setMember acc key v) rest4
                  else if c2 = rbrace then some (Json.obj (setMember acc key v), rest4)
                  else none
                | [] => none
            else none
          | [] => none
      else none
    | [] => none

/-- One JSON value at the head of the text, and the text after it. The first argument bounds
the nesting depth; the loops over elements and members are bounded by the length of the text
that is left. -/
def parseValue : Nat → List Char → Option (Json × List Char)
  | 0, _ => none
  | fuel + 1, cs =>
    match skipWhitespace cs with
    | [] => none
    | c :: rest =>
      if c = lbrace then
        match skipWhitespace rest with
        | c1 :: rest1 =>
          if c1 = rbrace then some (Json.obj [], rest1)
          else parseMembers (parseValue fuel) rest.length [] rest
        | [] => none
      else if c = '[' then
        match skipWhitespace rest with
        | c1 :: rest1 =>
          if c1 = ']' then some (Json.arr [], rest1)
          else parseElements (parseValue fuel) rest.length [] rest
        | [] => none
      else if c = quote then
        match parseString rest [] with
        | some (s, rest1) => some (Json.str s, rest1)
        | none => none
      else if c = 'n' then expect ['n', 'u', 'l', 'l'] Json.null (c :: rest)
      else if c = 't' then expect ['t', 'r', 'u', 'e'] (Json.bool true) (c :: rest)
      else if c = 'f' then expect ['f', 'a', 'l', 's', 'e'] (Json.bool false) (c :: rest)
      else parseNumber (c :: rest)

/-- Modelled from the spec: the reader of the serialization format of section 6, "absent or
malformed (fails to parse)". The builtin `JSON.parse` of the platform, which is not code under
`src/`; `none` stands for the `SyntaxError` it throws. The whole text must be one value. -/
def parse (text : String) : Option Json :=
  match parseValue (text.length + 1) text.toList with
  | some (v, rest) => if skipWhitespace rest = [] then some v else none
  | none => none

/-- A character that can follow a value inside an object: a comma or the closing bracket. -/
def Terminator (c : Char) : Prop := c = ',' ∨ c = rbrace

end JSON

/-- Modelled from the spec: the storage collaborator of section 6, `get(key)` giving a string
or absent and `set(key, value)` succeeding or failing. The builtin `localStorage` of the
browser, which is not code under `src/`: its items, and the number of characters it can hold. -/
structure LocalStorage where
  items : List (String × String)
  quota : Nat
  deriving DecidableEq, Repr

namespace LocalStorage

/-- The call `localStorage.getItem(key)`: `none` is `null`. -/
def getItem (storage : LocalStorage) (key : String) : Option String :=
  (storage.items.find? (fun item => item.1 = key)).map Prod.snd

/-- The items after a write of `value` under `key`. -/
def put : List (String × String) → String → String → List (String × String)
  | [], key, value => [(key, value)]
  | (k, v) :: rest, key, value =>
    if k = key then (k, value) :: rest else (k, v) :: put rest key value

/-- The number of characters held by a list of items. -/
def size (items : List (String × String)) : Nat :=
  (items.map (fun item => item.1.length + item.2.length)).sum

/-- The call `localStorage.setItem(key, value)`: `none` is the exception raised when the quota is
exceeded, in which case nothing is stored. -/
def setItem (storage : LocalStorage) (key value : String) : Option LocalStorage :=
  if size (put storage.items key value) ≤ storage.quota then
    some { storage with items := put storage.items key value }
  else none

end LocalStorage

/-! ## Loading and saving -/

/-- The JSON object of a table: one member per label, in table order. -/
def FrequencyTable.toJson (table : FrequencyTable) : Json :=
  Json.obj (table.map (fun entry => (entry.1, Json.num (entry.2 : Int) 0)))

/-- The object `surveyData` as a value: its six properties in the order of the object literal
of `loadSurveyData`. -/
def SurveyData.toJson (surveyData : SurveyData) : Json :=
  Json.obj [
    ("age", surveyData.age.toJson),
    ("preference", surveyData.preference.toJson),
    ("concerns", surveyData.concerns.toJson),
    ("remedies", surveyData.remedies.toJson),
    ("exercise", surveyData.exercise.toJson),
    ("totalResponses", Json.num surveyData.totalResponses 0)]

/-- Every table of the state is a mapping: no label occurs twice in a table. -/
def SurveyData.WellFormed (surveyData : SurveyData) : Prop :=
  ∀ key : QuestionId, (surveyData.table key).keys.Nodup

/-- The key of the persisted blob. -/
def storageKey : String := "healthcare3DSurveyData"

/-- The method `loadSurveyData()`: the parsed stored value when there is a non-empty stored string that
parses, the empty object literal otherwise. -/
def loadSurveyData (localStorage : LocalStorage) : Json :=
  match localStorage.getItem storageKey with
  | some savedData =>
    if savedData ≠ "" then
      match JSON.parse savedData with
      | some parsed => parsed
      | none => emptySurveyData.toJson
    else emptySurveyData.toJson
  | none => emptySurveyData.toJson

/-- The object `this`: the survey data, the storage it is saved to, the messages shown by
`alert`, and the submissions waiting in `setTimeout`. -/
structure HealthcareSurvey3D where
  surveyData : SurveyData
  localStorage : LocalStorage
  alerts : List String
  timeouts : List (Nat × Response)
  deriving DecidableEq, Repr

namespace HealthcareSurvey3D

/-- The method `saveSurveyData()`: the write is attempted, and an exception of `setItem` is caught. -/
def saveSurveyData (this : HealthcareSurvey3D) : HealthcareSurvey3D :=
  match this.localStorage.setItem storageKey (JSON.stringify this.surveyData.toJson) with
  | some stored => { this with localStorage := stored }
  | none => this

/-- The method `showError(message)`: `alert(message)`. -/
def showError (this : HealthcareSurvey3D) (message : String) : HealthcareSurvey3D :=
  { this with alerts := this.alerts ++ [message] }

/-- The callback `handleFormSubmit` hands to `setTimeout`, as far as the data goes:
`updateSurveyData(formData)` then `saveSurveyData()`. -/
def submitCallback (this : HealthcareSurvey3D) (formData : Response) : HealthcareSurvey3D :=
  saveSurveyData { this with surveyData := updateSurveyData this.surveyData formData }

/-- The method `handleFormSubmit(e)`, with `formData` the values of the five form fields: the validation
`Object.values(formData).some(value => !value)`, then either `showError` and `return`, or the
callback scheduled after 1200 ms. -/
def handleFormSubmit (this : HealthcareSurvey3D) (formData : Response) : HealthcareSurvey3D :=
  if formData.values.any (fun value => value = "") then
    this.showError "Please fill in all fields"
  else
    { this with timeouts := this.timeouts ++ [(1200, formData)] }

end HealthcareSurvey3D

/-! ## Plain objects: inherited members, key order and number arithmetic -/

/-- The names of the members every plain object inherits from `Object.prototype`. -/
def objectPrototypeNames : List String :=
  ["constructor", "__defineGetter__", "__defineSetter__", "hasOwnProperty",
   "__lookupGetter__", "__lookupSetter__", "isPrototypeOf", "propertyIsEnumerable",
   "toString", "valueOf", "__proto__", "toLocaleString"]

/-- The string an inherited member of `Object.prototype` turns into when `+ 1` concatenates
it: the source text of a builtin function, or `[object Object]` for the object that the
accessor `__proto__` returns. -/
def inheritedText (name : String) : String :=
  if name = "__proto__" then "[object Object]"
  else if name = "constructor" then "function Object() \x7b [native code] \x7d"
  else "function " ++ name ++ "() \x7b [native code] \x7d"

/-- The number a property name stands for when it is an array index: the canonical decimal
text of an integer below `2 ^ 32 - 1`. -/
def arrayIndex (label : String) : Option Nat :=
  if label.toList ≠ [] ∧ label.toList.all JSON.isDigit = true ∧
      Nat.toDigits 10 (JSON.digitsValue label.toList) = label.toList ∧
      JSON.digitsValue label.toList < 4294967295 then
    some (JSON.digitsValue label.toList)
  else none

/-- The array `Object.entries(obj)` of an object given by its own properties in creation
order: the properties whose names are array indices first, in ascending numeric order, then
the others in creation order. -/
def objectEntries {α : Type} (obj : List (String × α)) : List (String × α) :=
  (obj.filter (fun entry => (arrayIndex entry.1).isSome)).insertionSort
      (fun a b => (arrayIndex a.1).getD 0 ≤ (arrayIndex b.1).getD 0) ++
    obj.filter (fun entry => (arrayIndex entry.1).isNone)

/-- The sum `n + 1` of an integer-valued double and 1, rounded to the nearest double, ties to
even: exact between `-2 ^ 53` and `2 ^ 53`, and from there on only every second, then every
fourth integer is a double. -/
def addOne (n : Int) : Int :=
  if -9007199254740992 ≤ n ∧ n < 9007199254740992 then n + 1
  else if n.natAbs ≤ 18014398509481984 ∧ (n.natAbs / 2) % 2 = 1 then n + 2
  else n

/-- A value held by a property of a table: a number, or the string a concatenation left. -/
inductive JsValue where
  | num (n : Int)
  | str (s : String)
  deriving DecidableEq, Repr

/-- A plain object: its own properties in creation order. -/
abbrev JsObject := List (String × JsValue)

/-- The result of a property read `obj[label]`. -/
inductive JsRead where
  | undefined
  | own (value : JsValue)
  | inherited (name : String)
  deriving DecidableEq, Repr

namespace JsObject

/-- The own property of an object with a given name. -/
def getOwn : JsObject → String → Option JsValue
  | [], _ => none
  | (k, v) :: rest, label => if k = label then some v else getOwn rest label

/-- Property read `obj[label]`: the own property, else the member inherited from
`Object.prototype`, else `undefined`. -/
def read (obj : JsObject) (label : String) : JsRead :=
  match obj.getOwn label with
  | some value => JsRead.own value
  | none => if label ∈ objectPrototypeNames then JsRead.inherited label else JsRead.undefined

/-- The own property `label` replaced by `value`, in place. -/
def replace : JsObject → String → JsValue → JsObject
  | [], _, _ => []
  | (k, v) :: rest, label, value =>
    if k = label then (k, value) :: rest else (k, v) :: replace rest label value

/-- Property write `obj[label] = value` of a number or a string: an own property is
replaced; otherwise the setter of `__proto__` ignores the value, and any other name becomes
a new own property, created last. -/
def write (obj : JsObject) (label : String) (value : JsValue) : JsObject :=
  match obj.getOwn label with
  | some _ => obj.replace label value
  | none => if label = "__proto__" then obj else obj ++ [(label, value)]

end JsObject

/-- The sum of the values of an object when all of them are numbers; `none` when one of them
is a string. -/
def JsObject.total : JsObject → Option Int
  | [] => some 0
  | (_, JsValue.num n) :: rest => (JsObject.total rest).map (fun sum => n + sum)
  | (_, JsValue.str _) :: _ => none

/-- The expression `(x || 0) + 1` for the result `x` of a property read: `undefined`, `0` and
the empty string are falsy; a number is added to, a string or an inherited member is
concatenated with `1`. -/
def orZeroPlusOne : JsRead → JsValue
  | JsRead.undefined => JsValue.num (addOne 0)
  | JsRead.own (JsValue.num n) => if n = 0 then JsValue.num (addOne 0) else JsValue.num (addOne n)
  | JsRead.own (JsValue.str s) => if s = "" then JsValue.num (addOne 0) else JsValue.str (s ++ "1")
  | JsRead.inherited name => JsValue.str (inheritedText name ++ "1")

/-- The statement `table[value] = (table[value] || 0) + 1` on a plain object. -/
def JsObject.increment (table : JsObject) (value : String) : JsObject :=
  table.write value (orZeroPlusOne (table.read value))

/-- The object `surveyData` with its tables as plain objects. -/
structure JsSurveyData where
  age : JsObject
  preference : JsObject
  concerns : JsObject
  remedies : JsObject
  exercise : JsObject
  totalResponses : Int
  deriving DecidableEq, Repr

namespace JsSurveyData

/-- Property read `surveyData[key]` for one of the five question keys. -/
def table (surveyData : JsSurveyData) : QuestionId → JsObject
  | .age => surveyData.age
  | .preference => surveyData.preference
  | .concerns => surveyData.concerns
  | .remedies => surveyData.remedies
  | .exercise => surveyData.exercise

/-- The object `surveyData` after its table `surveyData[key]` was mutated into `table`. -/
def setTable (surveyData : JsSurveyData) (key : QuestionId) (table : JsObject) : JsSurveyData :=
  match key with
  | .age => { surveyData with age := table }
  | .preference => { surveyData with preference := table }
  | .concerns => { surveyData with concerns := table }
  | .remedies => { surveyData with remedies := table }
  | .exercise => { surveyData with exercise := table }

end JsSurveyData

namespace Js

/-- The body of the `forEach` callback of `updateSurveyData`, on plain objects. -/
def incrementAnswer (formData : Response) (surveyData : JsSurveyData) (key : QuestionId) :
    JsSurveyData :=
  let value := formData.get key
  surveyData.setTable key ((surveyData.table key).increment value)

/-- The method `updateSurveyData(formData)` on plain objects and doubles: the `forEach` over
`Object.keys(formData)`, then `this.surveyData.totalResponses++`. -/
def updateSurveyData (surveyData : JsSurveyData) (formData : Response) : JsSurveyData :=
  let updated := QuestionId.keys.foldl (incrementAnswer formData) surveyData
  { updated with totalResponses := addOne updated.totalResponses }

/-- Calling `updateSurveyData` on each response of a sequence in turn. -/
def replay (surveyData : JsSurveyData) (responses : List Response) : JsSurveyData :=
  responses.foldl updateSurveyData surveyData

end Js

/-- The plain object of a table of counts. -/
def FrequencyTable.toObject (table : FrequencyTable) : JsObject :=
  table.map (fun entry => (entry.1, JsValue.num (entry.2 : Int)))

/-- The state with its tables as plain objects. -/
def SurveyData.toJs (surveyData : SurveyData) : JsSurveyData :=
  { age := surveyData.age.toObject, preference := surveyData.preference.toObject,
    concerns := surveyData.concerns.toObject, remedies := surveyData.remedies.toObject,
    exercise := surveyData.exercise.toObject, totalResponses := surveyData.totalResponses }

/-! ## Chart data -/

/-- The palette `this.colors` set in the constructor. -/
def colors : List String :=
  ["#1FB8CD", "#FFC185", "#B4413C", "#ECEBD5", "#5D878F",
   "#DB4545", "#D2BA4C", "#964325", "#944454", "#13343B"]

/-- The object returned by `prepareChartData`. -/
structure ChartData where
  labels : List String
  values : List Nat
  colors : List String
  deriving DecidableEq, Repr

/-- The callback `(_, index) => this.colors[index % this.colors.length]`. -/
def colorAt (index : Nat) : String :=
  colors.get ⟨index % colors.length, Nat.mod_lt index (by decide)⟩

/-- The method `prepareChartData(data)`: three maps over `Object.entries(data)`, for a table
given by its own properties in creation order. -/
def prepareChartData (data : FrequencyTable) : ChartData :=
  let entries := objectEntries data
  { labels := entries.map (fun entry => entry.1),
    values := entries.map (fun entry => entry.2),
    colors := entries.mapIdx (fun index _ => colorAt index) }

/-- The border colour of a dataset: one colour, or one per entry. -/
inductive BorderColor where
  | uniform (color : String)
  | each (colors : List String)
  deriving DecidableEq, Repr

/-- The options of a chart configuration that differ between the two kinds of chart; the
shared `baseConfig` is a constant. -/
inductive ChartOptions where
  | doughnut (cutout : String) (radius : String)
  | bar (beginAtZero : Bool) (maxRotation : Nat)
  deriving DecidableEq, Repr

/-- The object returned by `getChartConfig`, with its single dataset inlined. -/
structure ChartConfig where
  type : String
  labels : List String
  data : List Nat
  backgroundColor : List String
  borderColor : BorderColor
  borderWidth : Nat
  options : ChartOptions
  deriving DecidableEq, Repr

/-- The method `getChartConfig(chartId, chartData)`. -/
def getChartConfig (chartId : String) (chartData : ChartData) : ChartConfig :=
  let isPieChart := chartId = "ageChart" ∨ chartId = "remediesChart"
  if isPieChart then
    { type := "doughnut",
      labels := chartData.labels,
      data := chartData.values,
      backgroundColor := chartData.colors,
      borderColor := BorderColor.uniform "#ffffff",
      borderWidth := 2,
      options := ChartOptions.doughnut "50%" "80%" }
  else
    { type := "bar",
      labels := chartData.labels,
      data := chartData.values,
      backgroundColor := chartData.colors,
      borderColor := BorderColor.each chartData.colors,
      borderWidth := 2,
      options := ChartOptions.bar true 45 }

/-- The first occurrence of `pattern` replaced, as `String.prototype.replace` does for a
string pattern. -/
def replaceFirst (pattern replacement : List Char) : List Char → List Char
  | [] => if pattern = [] then replacement else []
  | c :: rest =>
    if pattern.isPrefixOf (c :: rest) then replacement ++ (c :: rest).drop pattern.length
    else c :: replaceFirst pattern replacement rest

/-- The value of a property read `this.surveyData[dataKey]` in `drawChart`. -/
inductive Property where
  | table (data : FrequencyTable)
  | number (n : Int)
  | inherited (name : String)
  | undefined
  deriving DecidableEq, Repr

/-- Property read `surveyData[dataKey]` for an arbitrary string key: an own property, else a
member inherited from `Object.prototype`, else `undefined`. -/
def SurveyData.property (surveyData : SurveyData) (dataKey : String) : Property :=
  if dataKey = "age" then Property.table surveyData.age
  else if dataKey = "preference" then Property.table surveyData.preference
  else if dataKey = "concerns" then Property.table surveyData.concerns
  else if dataKey = "remedies" then Property.table surveyData.remedies
  else if dataKey = "exercise" then Property.table surveyData.exercise
  else if dataKey = "totalResponses" then Property.number surveyData.totalResponses
  else if dataKey ∈ objectPrototypeNames then Property.inherited dataKey
  else Property.undefined

/-- The canvas element found by `document.getElementById(chartId)`. -/
structure Canvas where
  width : Nat
  height : Nat
  deriving DecidableEq, Repr

/-- What a call of `drawChart` does: nothing when there is no canvas, the text of
`drawNoDataMessage` ("No data available yet"), or a new `Chart` with a configuration. -/
inductive Drawing where
  | nothing
  | noDataMessage (width height : Nat)
  | chart (config : ChartConfig)
  deriving DecidableEq, Repr

/-- The method `drawChart(chartId)`, with `canvas` the result of `document.getElementById`;
`none` is the `TypeError` of `Object.keys(undefined)`. A number and an inherited function or
object have no enumerable own keys. -/
def drawChart (surveyData : SurveyData) (canvas : Option Canvas) (chartId : String) :
    Option Drawing :=
  match canvas with
  | none => some Drawing.nothing
  | some element =>
    let dataKey := String.mk (replaceFirst "Chart".toList [] chartId.toList)
    match surveyData.property dataKey with
    | Property.undefined => none
    | Property.number _ => some (Drawing.noDataMessage element.width element.height)
    | Property.inherited _ => some (Drawing.noDataMessage element.width element.height)
    | Property.table data =>
      if ((objectEntries data).map Prod.fst).length = 0 then
        some (Drawing.noDataMessage element.width element.height)
      else
        let chartData := prepareChartData data
        some (Drawing.chart (getChartConfig chartId chartData))

/-- The chart id of a question, as listed in `initializeCharts` and `drawAllCharts`. -/
def QuestionId.chartId : QuestionId → String
  | .age => "ageChart"
  | .preference => "preferenceChart"
  | .concerns => "concernsChart"
  | .remedies => "remediesChart"
  | .exercise => "exerciseChart"

/-- The array literal `sampleResponses` of `addSampleData`. -/
def sampleResponses : List Response :=
  [ { age := "26-35", preference := "Modern Medicine", concerns := "Chronic Diseases",
      remedies := "Sometimes", exercise := "3-4 times/week" },
    { age := "18-25", preference := "Mixed Approach", concerns := "Preventive Care",
      remedies := "Often", exercise := "Daily" },
    { age := "36-45", preference := "Traditional Methods", concerns := "Digestive Issues",
      remedies := "Always", exercise := "1-2 times/week" },
    { age := "26-35", preference := "Ayurveda", concerns := "Mental Health",
      remedies := "Often", exercise := "5-6 times/week" },
    { age := "46-55", preference := "Modern Medicine", concerns := "Lifestyle Disorders",
      remedies := "Rarely", exercise := "3-4 times/week" },
    { age := "18-25", preference := "Mixed Approach", concerns := "Mental Health",
      remedies := "Sometimes", exercise := "Daily" },
    { age := "56+", preference := "Traditional Methods", concerns := "Chronic Diseases",
      remedies := "Always", exercise := "1-2 times/week" },
    { age := "36-45", preference := "Homeopathy", concerns := "Preventive Care",
      remedies := "Often", exercise := "3-4 times/week" } ]

/-- The eight sample responses as section 8 of the specification lists them. -/
def specSampleResponses : List Response :=
  [ ⟨"26-35", "Modern Medicine", "Chronic Diseases", "Sometimes", "3-4 times/week"⟩,
    ⟨"18-25", "Mixed Approach", "Preventive Care", "Often", "Daily"⟩,
    ⟨"36-45", "Traditional Methods", "Digestive Issues", "Always", "1-2 times/week"⟩,
    ⟨"26-35", "Ayurveda", "Mental Health", "Often", "5-6 times/week"⟩,
    ⟨"46-55", "Modern Medicine", "Lifestyle Disorders", "Rarely", "3-4 times/week"⟩,
    ⟨"18-25", "Mixed Approach", "Mental Health", "Sometimes", "Daily"⟩,
    ⟨"56+", "Traditional Methods", "Chronic Diseases", "Always", "1-2 times/week"⟩,
    ⟨"36-45", "Homeopathy", "Preventive Care", "Often", "3-4 times/week"⟩ ]

/-- The method `addSampleData()`: when `this.surveyData.totalResponses === 0`, the `forEach`
of `updateSurveyData` over `sampleResponses`, then `saveSurveyData()`; nothing otherwise. The
counter shown on the page and the redraw scheduled after 1000 ms are display only. -/
def HealthcareSurvey3D.addSampleData (this : HealthcareSurvey3D) : HealthcareSurvey3D :=
  if this.surveyData.totalResponses = 0 then
    HealthcareSurvey3D.saveSurveyData
      { this with surveyData := sampleResponses.foldl updateSurveyData this.surveyData }
  else this

/-! ## Recording a response -/

namespace FrequencyTable

theorem get_set_same (table : FrequencyTable) (label : String) (count : Nat) :
    (table.set label count).get label = some count := by
  induction table with
  | nil => simp [set, get]
  | cons entry rest ih =>
    obtain ⟨k, c⟩ := entry
    by_cases h : k = label
    · simp [set, get, h]
    · simp [set, get, h, ih]

theorem get_set_other (table : FrequencyTable) (label other : String) (count : Nat)
    (h : other ≠ label) : (table.set label count).get other = table.get other := by
  induction table with
  | nil => simp [set, get, Ne.symm h]
  | cons entry rest ih =>
    obtain ⟨k, c⟩ := entry
    by_cases hk : k = label
    · subst hk
      simp [set, get, Ne.symm h]
    · by_cases ho : k = other
      · subst ho
        simp [set, get, hk]
      · simp [set, get, hk, ho, ih]

theorem get_eq_none_iff (table : FrequencyTable) (label : String) :
    table.get label = none ↔ label ∉ table.keys := by
  induction table with
  | nil => simp [get, keys]
  | cons entry rest ih =>
    obtain ⟨k, c⟩ := entry
    by_cases h : k = label
    · simp [get, keys, h]
    · simp only [keys] at ih
      simp [get, keys, h, ih, Ne.symm h]

theorem set_of_mem (table : FrequencyTable) (label : String) (count : Nat)
    (h : label ∈ table.keys) : (table.set label count).keys = table.keys := by
  induction table with
  | nil => simp [keys] at h
  | cons entry rest ih =>
    obtain ⟨k, c⟩ := entry
    by_cases hk : k = label
    · simp [set, keys, hk]
    · have hrest : label ∈ keys rest := by
        simp only [keys, List.map_cons, List.mem_cons] at h
        rcases h with h | h
        · exact absurd h.symm hk
        · exact h
      have := ih hrest
      simp only [keys] at this
      simp [set, keys, hk, this]

theorem set_of_not_mem (table : FrequencyTable) (label : String) (count : Nat)
    (h : label ∉ table.keys) : table.set label count = table ++ [(label, count)] := by
  induction table with
  | nil => simp [set]
  | cons entry rest ih =>
    obtain ⟨k, c⟩ := entry
    simp only [keys, List.map_cons, List.mem_cons, not_or] at h
    have hk : ¬ k = label := fun e => h.1 e.symm
    have := ih h.2
    simp [set, hk, this]

theorem total_increment (table : FrequencyTable) (label : String) :
    (table.increment label).total = table.total + 1 := by
  unfold increment
  induction table with
  | nil => simp [set, get, total, orZero]
  | cons entry rest ih =>
    obtain ⟨k, c⟩ := entry
    by_cases h : k = label
    · by_cases hc : c = 0
      · simp [set, get, total, orZero, h, hc]
        omega
      · simp [set, get, total, orZero, h, hc]
        omega
    · simp only [total] at ih
      simp [set, get, total, h, ih]
      omega

end FrequencyTable

theorem orZero_eq (count : Option Nat) : orZero count = count.getD 0 := by
  cases count with
  | none => rfl
  | some n =>
    by_cases h : n = 0
    · simp [orZero, h]
    · simp [orZero, h]

theorem table_updateSurveyData (surveyData : SurveyData) (formData : Response)
    (key : QuestionId) :
    (updateSurveyData surveyData formData).table key =
      (surveyData.table key).increment (formData.get key) := by
  cases key <;> rfl

theorem totalResponses_updateSurveyData (surveyData : SurveyData) (formData : Response) :
    (updateSurveyData surveyData formData).totalResponses = surveyData.totalResponses + 1 := by
  rfl

theorem replay_append (surveyData : SurveyData) (first second : List Response) :
    replay surveyData (first ++ second) = replay (replay surveyData first) second := by
  simp [replay, List.foldl_append]

theorem totalResponses_replay (responses : List Response) (surveyData : SurveyData) :
    (replay surveyData responses).totalResponses = surveyData.totalResponses + responses.length := by
  induction responses generalizing surveyData with
  | nil => simp [replay]
  | cons formData rest ih =>
    have := ih (updateSurveyData surveyData formData)
    simp only [replay, List.foldl_cons] at this ⊢
    rw [this, totalResponses_updateSurveyData]
    simp
    omega

/-- On tables of counts, for every state and every response (in particular every response
with five non-empty labels), `updateSurveyData` leaves in each of the five tables the submitted label
with its old count plus 1, or with 1 when the label was not in the table, leaves the count of
every other label as it was, and makes `totalResponses` one larger; on the empty state every
table holds the single submitted label with count 1 and `totalResponses` is 1. -/
theorem updateSurveyData_records (surveyData : SurveyData) (formData : Response) :
    (∀ key : QuestionId,
      ((updateSurveyData surveyData formData).table key).get (formData.get key) =
        (match (surveyData.table key).get (formData.get key) with
          | some count => some (count + 1)
          | none => some 1) ∧
      ∀ other : String, other ≠ formData.get key →
        ((updateSurveyData surveyData formData).table key).get other =
          (surveyData.table key).get other) ∧
    (updateSurveyData surveyData formData).totalResponses = surveyData.totalResponses + 1 ∧
    updateSurveyData emptySurveyData formData =
      { age := [(formData.age, 1)], preference := [(formData.preference, 1)],
        concerns := [(formData.concerns, 1)], remedies := [(formData.remedies, 1)],
        exercise := [(formData.exercise, 1)], totalResponses := 1 } := by
  refine ⟨fun key => ⟨?_, fun other h => ?_⟩, rfl, rfl⟩
  · rw [table_updateSurveyData, FrequencyTable.increment, FrequencyTable.get_set_same,
      orZero_eq]
    cases (surveyData.table key).get (formData.get key) <;> simp
  · rw [table_updateSurveyData, FrequencyTable.increment,
      FrequencyTable.get_set_other _ _ _ _ h]

theorem table_replay (responses : List Response) (surveyData : SurveyData) (key : QuestionId) :
    (replay surveyData responses).table key =
      (responses.map (fun formData => formData.get key)).foldl FrequencyTable.increment
        (surveyData.table key) := by
  induction responses generalizing surveyData with
  | nil => simp [replay]
  | cons formData rest ih =>
    have := ih (updateSurveyData surveyData formData)
    simp only [replay, List.foldl_cons, List.map_cons] at this ⊢
    rw [this, table_updateSurveyData]

theorem total_foldl_increment (answers : List String) (table : FrequencyTable) :
    (answers.foldl FrequencyTable.increment table).total = table.total + answers.length := by
  induction answers generalizing table with
  | nil => simp
  | cons answer rest ih =>
    simp only [List.foldl_cons, List.length_cons]
    rw [ih, FrequencyTable.total_increment]
    omega

/-- C2: when nothing is stored under the key, `loadSurveyData` returns the empty object
literal, and replaying any sequence of `N` responses with `updateSurveyData` from that empty
state gives `totalResponses = N`. -/
theorem totalResponses_replay_empty (localStorage : LocalStorage)
    (hAbsent : localStorage.getItem storageKey = none) (N : Nat) (responses : List Response)
    (hLength : responses.length = N) :
    loadSurveyData localStorage = emptySurveyData.toJson ∧
    (replay emptySurveyData responses).totalResponses = N := by
  refine ⟨?_, ?_⟩
  · simp [loadSurveyData, hAbsent]
  · rw [totalResponses_replay, ← hLength]
    simp [emptySurveyData]

theorem totalResponses_replay_empty_witness :
    (LocalStorage.mk [] 5000).getItem storageKey = none ∧
    sampleResponses.length = 8 ∧
    loadSurveyData (LocalStorage.mk [] 5000) = emptySurveyData.toJson ∧
    (replay emptySurveyData sampleResponses).totalResponses = (8 : Nat) :=
  ⟨by decide, by decide,
    totalResponses_replay_empty (LocalStorage.mk [] 5000) (by decide) 8 sampleResponses
      (by decide)⟩

/-- On tables of counts, in every state reached from the empty state by a sequence of
`updateSurveyData` calls, the counts of each of the five tables sum to `totalResponses`. -/
theorem total_eq_totalResponses (responses : List Response) (key : QuestionId) :
    ((((replay emptySurveyData responses).table key).total : Nat) : Int) =
      (replay emptySurveyData responses).totalResponses := by
  rw [table_replay, total_foldl_increment, totalResponses_replay]
  cases key <;> simp [emptySurveyData, SurveyData.table, FrequencyTable.total]

/-! ## Tables list labels in first-seen order -/

theorem get_keyed (ks : List String) (f : String → Nat) (label : String) :
    FrequencyTable.get (ks.map fun k => (k, f k)) label =
      if label ∈ ks then some (f label) else none := by
  induction ks with
  | nil => simp [FrequencyTable.get]
  | cons k rest ih =>
    by_cases h : k = label
    · subst h
      simp [FrequencyTable.get]
    · simp [FrequencyTable.get, h, ih, Ne.symm h]

theorem set_keyed_of_mem (ks : List String) (f : String → Nat) (label : String) (count : Nat)
    (hNodup : ks.Nodup) (hMem : label ∈ ks) :
    FrequencyTable.set (ks.map fun k => (k, f k)) label count =
      ks.map fun k => (k, if k = label then count else f k) := by
  induction ks with
  | nil => simp at hMem
  | cons k rest ih =>
    rw [List.nodup_cons] at hNodup
    by_cases h : k = label
    · subst h
      simp only [List.map_cons, FrequencyTable.set, if_true, List.cons.injEq, true_and]
      apply List.map_congr_left
      intro other hOther
      have : other ≠ k := fun e => hNodup.1 (e ▸ hOther)
      simp [this]
    · have hRest : label ∈ rest := by
        rcases List.mem_cons.mp hMem with e | e
        · exact absurd e.symm h
        · exact e
      simp [FrequencyTable.set, h, ih hNodup.2 hRest]

theorem tally_step (seen ks : List String) (answer : String)
    (hOrder : ks.Pairwise (fun a b => seen.indexOf a < seen.indexOf b))
    (hMem : ∀ label, label ∈ ks ↔ label ∈ seen) :
    ∃ ks2 : List String,
      FrequencyTable.increment (ks.map fun label => (label, seen.count label)) answer =
        ks2.map (fun label => (label, (seen ++ [answer]).count label)) ∧
      ks2.Pairwise (fun a b => (seen ++ [answer]).indexOf a < (seen ++ [answer]).indexOf b) ∧
      ∀ label, label ∈ ks2 ↔ label ∈ seen ++ [answer] := by
  have hNodup : ks.Nodup := hOrder.imp (fun h e => by subst e; exact lt_irrefl _ h)
  have hKeep : ks.Pairwise
      (fun a b => (seen ++ [answer]).indexOf a < (seen ++ [answer]).indexOf b) := by
    refine hOrder.imp_of_mem ?_
    intro a b ha hb hlt
    rw [List.indexOf_append_of_mem ((hMem a).mp ha),
      List.indexOf_append_of_mem ((hMem b).mp hb)]
    exact hlt
  by_cases hSeen : answer ∈ seen
  · refine ⟨ks, ?_, hKeep, ?_⟩
    · have hIn : answer ∈ ks := (hMem answer).mpr hSeen
      rw [FrequencyTable.increment, get_keyed, if_pos hIn, orZero_eq,
        set_keyed_of_mem _ _ _ _ hNodup hIn]
      apply List.map_congr_left
      intro other _
      by_cases h : other = answer
      · subst h
        simp
      · simp [h, List.count_singleton, Ne.symm h]
    · intro label
      rw [hMem label]
      constructor
      · intro h
        exact List.mem_append_left _ h
      · intro h
        rcases List.mem_append.mp h with h | h
        · exact h
        · rw [List.mem_singleton.mp h]
          exact hSeen
  · have hOut : answer ∉ ks := fun h => hSeen ((hMem answer).mp h)
    refine ⟨ks ++ [answer], ?_, ?_, ?_⟩
    · have hKeys : answer ∉ FrequencyTable.keys (ks.map fun label => (label, seen.count label)) := by
        simpa [FrequencyTable.keys, List.map_map, Function.comp_def] using hOut
      rw [FrequencyTable.increment, get_keyed, if_neg hOut,
        FrequencyTable.set_of_not_mem _ _ _ hKeys]
      rw [List.map_append]
      congr 1
      · apply List.map_congr_left
        intro other hOther
        have : answer ≠ other := fun e => hOut (e ▸ hOther)
        simp [List.count_singleton, this]
      · simp [orZero, List.count_eq_zero_of_not_mem hSeen]
    · rw [List.pairwise_append]
      refine ⟨hKeep, List.pairwise_singleton _ _, ?_⟩
      intro a ha b hb
      rw [List.mem_singleton.mp hb, List.indexOf_append_of_mem ((hMem a).mp ha),
        List.indexOf_append_of_not_mem hSeen, List.indexOf_cons_self]
      have := List.indexOf_lt_length.mpr ((hMem a).mp ha)
      omega
    · intro label
      simp [hMem label]

theorem tally_foldl (answers seen ks : List String)
    (hOrder : ks.Pairwise (fun a b => seen.indexOf a < seen.indexOf b))
    (hMem : ∀ label, label ∈ ks ↔ label ∈ seen) :
    ∃ ks2 : List String,
      answers.foldl FrequencyTable.increment (ks.map fun label => (label, seen.count label)) =
        ks2.map (fun label => (label, (seen ++ answers).count label)) ∧
      ks2.Pairwise (fun a b => (seen ++ answers).indexOf a < (seen ++ answers).indexOf b) ∧
      ∀ label, label ∈ ks2 ↔ label ∈ seen ++ answers := by
  induction answers generalizing seen ks with
  | nil => exact ⟨ks, by simp, by simpa using hOrder, by simpa using hMem⟩
  | cons answer rest ih =>
    obtain ⟨ks1, hTable, hOrder1, hMem1⟩ := tally_step seen ks answer hOrder hMem
    obtain ⟨ks2, hTable2, hOrder2, hMem2⟩ := ih (seen ++ [answer]) ks1 hOrder1 hMem1
    refine ⟨ks2, ?_, ?_, ?_⟩
    · rw [List.foldl_cons, hTable, hTable2]
      simp
    · simpa using hOrder2
    · simpa using hMem2

/-- On tables of counts, after replaying any sequence of responses with `updateSurveyData`
from the empty state, the table of each question lists exactly the labels answered for that question, each
once, ordered by the position of their first occurrence in the sequence of answers, and the
count stored with a label is the number of responses that gave that label. -/
theorem replay_tallies (responses : List Response) (key : QuestionId) :
    (((replay emptySurveyData responses).table key).keys.Pairwise
      (fun a b =>
        (responses.map fun formData => formData.get key).indexOf a <
          (responses.map fun formData => formData.get key).indexOf b)) ∧
    ((replay emptySurveyData responses).table key).keys.Nodup ∧
    (∀ label : String, label ∈ ((replay emptySurveyData responses).table key).keys ↔
      label ∈ responses.map fun formData => formData.get key) ∧
    (replay emptySurveyData responses).table key =
      ((replay emptySurveyData responses).table key).keys.map
        (fun label => (label, (responses.map fun formData => formData.get key).count label)) ∧
    ∀ label : String, ((replay emptySurveyData responses).table key).get label =
      if label ∈ (responses.map fun formData => formData.get key) then
        some ((responses.map fun formData => formData.get key).count label)
      else none := by
  obtain ⟨ks, hTable, hOrder, hMem⟩ :=
    tally_foldl (responses.map fun formData => formData.get key) [] []
      List.Pairwise.nil (by simp)
  have hStart : (emptySurveyData.table key) = ([] : List String).map
      (fun label => (label, ([] : List String).count label)) := by
    cases key <;> rfl
  have hEq : (replay emptySurveyData responses).table key =
      ks.map (fun label =>
        (label, (responses.map fun formData => formData.get key).count label)) := by
    rw [table_replay, hStart, hTable]
    simp
  have hKeys : ((replay emptySurveyData responses).table key).keys = ks := by
    rw [hEq]
    simp [FrequencyTable.keys, List.map_map, Function.comp_def]
  simp only [List.nil_append] at hOrder hMem
  rw [hKeys]
  refine ⟨hOrder, hOrder.imp (fun h e => by subst e; exact lt_irrefl _ h), hMem, hEq, ?_⟩
  intro label
  rw [hEq, get_keyed]
  by_cases hLabel : label ∈ responses.map fun formData => formData.get key
  · rw [if_pos ((hMem label).mpr hLabel), if_pos hLabel]
  · rw [if_neg (fun h => hLabel ((hMem label).mp h)), if_neg hLabel]

/-! ## Chart data -/

theorem objectEntries_perm {α : Type} (obj : List (String × α)) :
    (objectEntries obj).Perm obj := by
  have hNone : (fun entry : String × α => (arrayIndex entry.1).isNone) =
      fun entry => !(arrayIndex entry.1).isSome := by
    funext entry
    cases arrayIndex entry.1 <;> rfl
  unfold objectEntries
  rw [hNone]
  exact ((List.perm_insertionSort _ _).append_right _).trans (List.filter_append_perm _ obj)

theorem length_objectEntries {α : Type} (obj : List (String × α)) :
    (objectEntries obj).length = obj.length :=
  (objectEntries_perm obj).length_eq

theorem objectEntries_of_no_index {α : Type} (obj : List (String × α))
    (h : ∀ entry ∈ obj, arrayIndex entry.1 = none) : objectEntries obj = obj := by
  have hSome : obj.filter (fun entry => (arrayIndex entry.1).isSome) = [] := by
    rw [List.filter_eq_nil_iff]
    intro entry hEntry
    simp [h entry hEntry]
  have hNone : obj.filter (fun entry => (arrayIndex entry.1).isNone) = obj := by
    rw [List.filter_eq_self]
    intro entry hEntry
    simp [h entry hEntry]
  simp [objectEntries, hSome, hNone]

/-- C4 (amended): `prepareChartData` returns labels, values and colors as long as the table; the labels
and values are those of `Object.entries` of the table, with the counts unchanged, and the
color at position `i` is entry `i mod 10` of the palette of ten colors; when no label of the
table is an array index, the label and the value at every position `i` are the label and the
count of the `i`-th entry of the table in its first-seen insertion order. -/
theorem prepareChartData_entries (data : FrequencyTable) (i : Nat) (h : i < data.length) :
    (prepareChartData data).labels.length = data.length ∧
    (prepareChartData data).values.length = data.length ∧
    (prepareChartData data).colors.length = data.length ∧
    (prepareChartData data).labels = (objectEntries data).map Prod.fst ∧
    (prepareChartData data).values = (objectEntries data).map Prod.snd ∧
    (prepareChartData data).colors[i]? = colors[i % 10]? ∧
    colors.length = 10 ∧
    ((∀ entry ∈ data, arrayIndex entry.1 = none) →
      (prepareChartData data).labels = data.map Prod.fst ∧
      (prepareChartData data).values = data.map Prod.snd ∧
      (prepareChartData data).labels[i]? = some (data[i]).1 ∧
      (prepareChartData data).values[i]? = some (data[i]).2) := by
  have hColor : colors[i % 10]? = some (colorAt i) := by
    have hLt : i % 10 < colors.length := Nat.mod_lt i (by decide)
    rw [List.getElem?_eq_getElem hLt]
    rfl
  have hLength := length_objectEntries data
  have hIn : i < (objectEntries data).length := by omega
  refine ⟨by simp [prepareChartData, hLength], by simp [prepareChartData, hLength],
    by simp [prepareChartData, hLength], rfl, rfl, ?_, rfl, ?_⟩
  · rw [hColor]
    simp [prepareChartData, List.getElem?_eq_getElem hIn]
  · intro hPlain
    have hSame := objectEntries_of_no_index data hPlain
    have hLabels : (prepareChartData data).labels = data.map Prod.fst := by
      simp only [prepareChartData, hSame]
    have hValues : (prepareChartData data).values = data.map Prod.snd := by
      simp only [prepareChartData, hSame]
    refine ⟨hLabels, hValues, ?_, ?_⟩
    · rw [hLabels]
      simp [List.getElem?_eq_getElem h]
    · rw [hValues]
      simp [List.getElem?_eq_getElem h]

theorem prepareChartData_entries_witness :
    (prepareChartData [("56+", 1), ("18-25", 7), ("26-35", 3)]).labels[1]? = some "18-25" ∧
    (prepareChartData [("56+", 1), ("18-25", 7), ("26-35", 3)]).values[1]? = some 7 ∧
    (prepareChartData [("56+", 1), ("18-25", 7), ("26-35", 3)]).colors[1]? = colors[1 % 10]? :=
  have h := prepareChartData_entries [("56+", 1), ("18-25", 7), ("26-35", 3)] 1 (by decide)
  have hPlain := h.2.2.2.2.2.2.2 (by decide)
  ⟨hPlain.2.2.1, hPlain.2.2.2, h.2.2.2.2.2.1⟩

/-- Counterexample to C4 as stated: a table whose labels were first seen in the order `b`,
`2`, `10`, `1` is charted with the labels in the order `1`, `2`, `10`, `b`, the order of
`Object.entries`, not the first-seen order, with the counts following their labels. -/
theorem prepareChartData_index_order :
    (prepareChartData [("b", 4), ("2", 3), ("10", 2), ("1", 1)]).labels = ["1", "2", "10", "b"] ∧
    (prepareChartData [("b", 4), ("2", 3), ("10", 2), ("1", 1)]).values = [1, 3, 2, 4] ∧
    (prepareChartData [("b", 4), ("2", 3), ("10", 2), ("1", 1)]).labels ≠
      ["b", "2", "10", "1"] := by
  decide

theorem dataKey_chartId (key : QuestionId) :
    String.mk (replaceFirst "Chart".toList [] key.chartId.toList) = key.name := by
  cases key <;> decide

theorem property_name (surveyData : SurveyData) (key : QuestionId) :
    surveyData.property key.name = Property.table (surveyData.table key) := by
  cases key <;> simp [SurveyData.property, QuestionId.name, SurveyData.table]

theorem labels_getChartConfig (chartId : String) (chartData : ChartData) :
    (getChartConfig chartId chartData).labels = chartData.labels := by
  simp only [getChartConfig]
  split <;> rfl

theorem drawChart_canvas (surveyData : SurveyData) (element : Canvas) (key : QuestionId) :
    drawChart surveyData (some element) key.chartId =
      if (surveyData.table key).keys.length = 0 then
        some (Drawing.noDataMessage element.width element.height)
      else
        some (Drawing.chart
          (getChartConfig key.chartId (prepareChartData (surveyData.table key)))) := by
  simp only [drawChart, dataKey_chartId, property_name, List.length_map, length_objectEntries,
    FrequencyTable.keys]

/-- C5 (amended): when the canvas element of the chart exists, the derive step of `drawChart`
(the emptiness test on `Object.keys(data)` followed by `prepareChartData`) gives the "No data
available yet" message and no dataset for an empty table: `drawChart` draws the message
exactly when the table of the question has no labels and draws a chart of `prepareChartData`
otherwise; and no call of `drawChart`, with or without canvas, produces a chart whose dataset
has zero labels. -/
theorem drawChart_noData (surveyData : SurveyData) (element : Canvas) (key : QuestionId) :
    (drawChart surveyData (some element) key.chartId =
        some (Drawing.noDataMessage element.width element.height) ↔
      (surveyData.table key).keys = []) ∧
    ((surveyData.table key).keys ≠ [] →
      drawChart surveyData (some element) key.chartId =
        some (Drawing.chart
          (getChartConfig key.chartId (prepareChartData (surveyData.table key))))) ∧
    (∀ (canvas : Option Canvas) (config : ChartConfig),
      drawChart surveyData canvas key.chartId = some (Drawing.chart config) →
        config.labels ≠ []) := by
  refine ⟨?_, ?_, ?_⟩
  · rw [drawChart_canvas]
    by_cases h : (surveyData.table key).keys = []
    · simp [h]
    · simp [h]
  · intro h
    rw [drawChart_canvas, if_neg (by simpa using h)]
  · intro canvas config hDraw
    cases canvas with
    | none => simp [drawChart] at hDraw
    | some shown =>
      rw [drawChart_canvas] at hDraw
      by_cases h : (surveyData.table key).keys = []
      · simp [h] at hDraw
      · rw [if_neg (by simpa using h)] at hDraw
        simp only [Option.some.injEq, Drawing.chart.injEq] at hDraw
        rw [← hDraw, labels_getChartConfig]
        intro hLabels
        have hLength := congrArg List.length hLabels
        simp only [prepareChartData, List.length_map, length_objectEntries,
          List.length_nil] at hLength
        exact h (by simpa [FrequencyTable.keys] using List.length_eq_zero.mp hLength)

theorem drawChart_noData_witness :
    drawChart emptySurveyData (some (Canvas.mk 300 150)) QuestionId.age.chartId =
      some (Drawing.noDataMessage 300 150) ∧
    drawChart (updateSurveyData emptySurveyData (Response.mk "56+" "Ayurveda" "x" "y" "z"))
        (some (Canvas.mk 300 150)) QuestionId.age.chartId =
      some (Drawing.chart (getChartConfig QuestionId.age.chartId
        (prepareChartData [("56+", 1)]))) ∧
    (getChartConfig QuestionId.age.chartId (prepareChartData [("56+", 1)])).labels ≠ [] :=
  ⟨(drawChart_noData emptySurveyData (Canvas.mk 300 150) QuestionId.age).1.mpr (by decide),
    (drawChart_noData (updateSurveyData emptySurveyData (Response.mk "56+" "Ayurveda" "x" "y" "z"))
      (Canvas.mk 300 150) QuestionId.age).2.1 (by decide),
    (drawChart_noData (updateSurveyData emptySurveyData (Response.mk "56+" "Ayurveda" "x" "y" "z"))
      (Canvas.mk 300 150) QuestionId.age).2.2 (some (Canvas.mk 300 150)) _ (by decide)⟩

/-! ## The sample data -/

/-- C8: replaying the eight literal sample responses of `addSampleData`, in their listed order,
from the empty state gives `totalResponses = 8` and the age table `26-35: 2`, `18-25: 2`,
`36-45: 2`, `46-55: 1`, `56+: 1` in that order; the eight responses of the code are the eight
that section 8 of the specification lists. -/
theorem replay_sampleResponses :
    (replay emptySurveyData sampleResponses).totalResponses = 8 ∧
    (replay emptySurveyData sampleResponses).age =
      [("26-35", 2), ("18-25", 2), ("36-45", 2), ("46-55", 1), ("56+", 1)] ∧
    sampleResponses = specSampleResponses ∧
    sampleResponses.length = 8 := by
  decide

/-! ## Validation of a submission -/

theorem any_empty_iff (formData : Response) :
    formData.values.any (fun value => value = "") = true ↔
      ∃ key : QuestionId, formData.get key = "" := by
  constructor
  · intro h
    simp only [Response.values, QuestionId.keys, List.map_cons, List.map_nil, List.any_cons,
      List.any_nil, Bool.or_false, Bool.or_eq_true, decide_eq_true_eq] at h
    rcases h with h | h | h | h | h
    · exact ⟨QuestionId.age, h⟩
    · exact ⟨QuestionId.preference, h⟩
    · exact ⟨QuestionId.concerns, h⟩
    · exact ⟨QuestionId.remedies, h⟩
    · exact ⟨QuestionId.exercise, h⟩
  · rintro ⟨key, h⟩
    simp only [Response.values, QuestionId.keys, List.map_cons, List.map_nil, List.any_cons,
      List.any_nil, Bool.or_false, Bool.or_eq_true, decide_eq_true_eq]
    cases key
    · exact Or.inl h
    · exact Or.inr (Or.inl h)
    · exact Or.inr (Or.inr (Or.inl h))
    · exact Or.inr (Or.inr (Or.inr (Or.inl h)))
    · exact Or.inr (Or.inr (Or.inr (Or.inr h)))

/-- C10: when at least one of the five values of a submission is empty, `handleFormSubmit`
shows the error and returns: the five tables, `totalResponses` and the storage are as before
and no submission is scheduled; when all five values are non-empty the check does not reject
the submission: no error is shown and the submission is scheduled. -/
theorem handleFormSubmit_validation (this : HealthcareSurvey3D) (formData : Response) :
    ((∃ key : QuestionId, formData.get key = "") →
      (this.handleFormSubmit formData).surveyData = this.surveyData ∧
      (this.handleFormSubmit formData).localStorage = this.localStorage ∧
      (this.handleFormSubmit formData).timeouts = this.timeouts ∧
      (this.handleFormSubmit formData).alerts = this.alerts ++ ["Please fill in all fields"]) ∧
    ((∀ key : QuestionId, formData.get key ≠ "") →
      (this.handleFormSubmit formData).alerts = this.alerts ∧
      (this.handleFormSubmit formData).timeouts = this.timeouts ++ [(1200, formData)] ∧
      (this.handleFormSubmit formData).surveyData = this.surveyData ∧
      (this.handleFormSubmit formData).localStorage = this.localStorage) := by
  constructor
  · intro h
    have hAny := (any_empty_iff formData).mpr h
    simp [HealthcareSurvey3D.handleFormSubmit, hAny, HealthcareSurvey3D.showError]
  · intro h
    have hAny : ¬ formData.values.any (fun value => value = "") = true := by
      rw [any_empty_iff]
      rintro ⟨key, hKey⟩
      exact h key hKey
    simp [HealthcareSurvey3D.handleFormSubmit, hAny]

theorem handleFormSubmit_validation_witness :
    ((HealthcareSurvey3D.mk emptySurveyData (LocalStorage.mk [] 5000) [] []).handleFormSubmit
        (Response.mk "26-35" "" "Mental Health" "Often" "Daily")).surveyData = emptySurveyData ∧
    ((HealthcareSurvey3D.mk emptySurveyData (LocalStorage.mk [] 5000) [] []).handleFormSubmit
        (Response.mk "26-35" "Ayurveda" "Mental Health" "Often" "Daily")).alerts = [] :=
  ⟨((handleFormSubmit_validation
      (HealthcareSurvey3D.mk emptySurveyData (LocalStorage.mk [] 5000) [] [])
      (Response.mk "26-35" "" "Mental Health" "Often" "Daily")).1
        ⟨QuestionId.preference, rfl⟩).1,
    ((handleFormSubmit_validation
      (HealthcareSurvey3D.mk emptySurveyData (LocalStorage.mk [] 5000) [] [])
      (Response.mk "26-35" "Ayurveda" "Mental Health" "Often" "Daily")).2
        (by intro key; cases key <;> decide)).1⟩

/-! ## Reading back what `JSON.stringify` wrote -/

namespace JSON

theorem skipWhitespace_of_not (c : Char) (cs : List Char) (h : isWhitespace c = false) :
    skipWhitespace (c :: cs) = c :: cs := by
  simp [skipWhitespace, h]

theorem hex4_control : ∀ n, n < 32 →
    hex4 '0' '0' (hexDigit (n / 16)) (hexDigit (n % 16)) = some n := by
  decide

theorem parseString_plain (c : Char) (tail acc : List Char) (h1 : c ≠ quote)
    (h2 : c ≠ backslash) (h3 : ¬ c.toNat < 32) :
    parseString (c :: tail) acc = parseString tail (c :: acc) := by
  rw [parseString.eq_def]
  simp [h1, h2, h3]

theorem parseString_escape (e : Char) (tail acc : List Char) :
    parseString (backslash :: e :: tail) acc =
      if e = quote then parseString tail (quote :: acc)
      else if e = backslash then parseString tail (backslash :: acc)
      else if e = '/' then parseString tail ('/' :: acc)
      else if e = 'b' then parseString tail (Char.ofNat 8 :: acc)
      else if e = 'f' then parseString tail (Char.ofNat 12 :: acc)
      else if e = 'n' then parseString tail (Char.ofNat 10 :: acc)
      else if e = 'r' then parseString tail (Char.ofNat 13 :: acc)
      else if e = 't' then parseString tail (Char.ofNat 9 :: acc)
      else if e = 'u' then
        match tail with
        | a :: b :: c1 :: d :: rest2 =>
          match hex4 a b c1 d with
          | some n => parseString rest2 (Char.ofNat n :: acc)
          | none => none
        | _ => none
      else none := by
  have hbq : backslash ≠ quote := by decide
  rw [parseString.eq_def]
  simp only [hbq, if_false, if_true]

theorem parseString_escapeChar (c : Char) (tail acc : List Char) :
    parseString (escapeChar c ++ tail) acc = parseString tail (c :: acc) := by
  unfold escapeChar
  split_ifs with h1 h2 h3 h4 h5 h6 h7 h8
  · subst h1
    rw [List.cons_append, List.cons_append, List.nil_append, parseString_escape, if_pos rfl]
  · subst h2
    rw [List.cons_append, List.cons_append, List.nil_append, parseString_escape,
      if_neg (by decide), if_pos rfl]
  · subst h3
    rw [List.cons_append, List.cons_append, List.nil_append, parseString_escape,
      if_neg (by decide), if_neg (by decide), if_neg (by decide), if_pos rfl]
  · subst h4
    rw [List.cons_append, List.cons_append, List.nil_append, parseString_escape,
      if_neg (by decide), if_neg (by decide), if_neg (by decide), if_neg (by decide),
      if_pos rfl]
  · subst h5
    rw [List.cons_append, List.cons_append, List.nil_append, parseString_escape,
      if_neg (by decide), if_neg (by decide), if_neg (by decide), if_neg (by decide),
      if_neg (by decide), if_pos rfl]
  · subst h6
    rw [List.cons_append, List.cons_append, List.nil_append, parseString_escape,
      if_neg (by decide), if_neg (by decide), if_neg (by decide), if_neg (by decide),
      if_neg (by decide), if_neg (by decide), if_pos rfl]
  · subst h7
    rw [List.cons_append, List.cons_append, List.nil_append, parseString_escape,
      if_neg (by decide), if_neg (by decide), if_neg (by decide), if_neg (by decide),
      if_neg (by decide), if_neg (by decide), if_neg (by decide), if_pos rfl]
  · simp only [List.cons_append, List.nil_append]
    rw [parseString_escape,
      if_neg (by decide), if_neg (by decide), if_neg (by decide), if_neg (by decide),
      if_neg (by decide), if_neg (by decide), if_neg (by decide), if_neg (by decide),
      if_pos rfl]
    simp only [hex4_control c.toNat h8, Char.ofNat_toNat]
  · exact parseString_plain c tail acc h1 h2 h8

theorem parseString_escapeChars (cs tail acc : List Char) :
    parseString (escapeChars cs ++ quote :: tail) acc =
      some (String.mk (acc.reverse ++ cs), tail) := by
  induction cs generalizing acc with
  | nil =>
    rw [parseString.eq_def]
    simp [escapeChars]
  | cons c rest ih =>
    rw [escapeChars, List.append_assoc, parseString_escapeChar, ih]
    simp

theorem parseString_quoteString (s : String) (tail : List Char) :
    parseString (escapeChars s.toList ++ quote :: tail) [] = some (s, tail) := by
  rw [parseString_escapeChars]
  simp


theorem digitChar_facts : ∀ n, n < 10 →
    isDigit (Nat.digitChar n) = true ∧ digitsValue [Nat.digitChar n] = n ∧
    (Nat.digitChar n).toNat - 48 = n ∧
    (Nat.digitChar n = '0' → n = 0) := by
  decide

theorem digitsValue_append (ds : List Char) (d : Char) :
    digitsValue (ds ++ [d]) = 10 * digitsValue ds + (d.toNat - 48) := by
  simp [digitsValue, List.foldl_append]

theorem toDigitsCore_append (fuel n : Nat) (ds : List Char) :
    Nat.toDigitsCore 10 fuel n ds = Nat.toDigitsCore 10 fuel n [] ++ ds := by
  induction fuel generalizing n ds with
  | zero => simp [Nat.toDigitsCore]
  | succ fuel ih =>
    simp only [Nat.toDigitsCore]
    split
    · simp
    · rw [ih (n / 10) (Nat.digitChar (n % 10) :: ds), ih (n / 10) [Nat.digitChar (n % 10)]]
      simp

theorem toDigitsCore_facts (n : Nat) : ∀ fuel, n < fuel →
    (∀ c ∈ Nat.toDigitsCore 10 fuel n [], isDigit c = true) ∧
    Nat.toDigitsCore 10 fuel n [] ≠ [] ∧
    digitsValue (Nat.toDigitsCore 10 fuel n []) = n ∧
    ((Nat.toDigitsCore 10 fuel n []).head? = some '0' →
      Nat.toDigitsCore 10 fuel n [] = ['0']) := by
  induction n using Nat.strong_induction_on with
  | _ n ih =>
    intro fuel hFuel
    obtain ⟨fuel, rfl⟩ : ∃ f, fuel = f + 1 := ⟨fuel - 1, by omega⟩
    simp only [Nat.toDigitsCore]
    by_cases hSmall : n / 10 = 0
    · have hLt : n < 10 := by omega
      have hMod : n % 10 = n := Nat.mod_eq_of_lt hLt
      obtain ⟨h1, h2, _, h4⟩ := digitChar_facts n hLt
      rw [if_pos hSmall, hMod]
      refine ⟨by simpa using h1, by simp, h2, ?_⟩
      intro hHead
      simp only [List.head?_cons, Option.some.injEq] at hHead
      rw [hHead]
    · have hDiv : n / 10 < n := by omega
      obtain ⟨g1, g2, g3, _⟩ := ih (n / 10) hDiv fuel (by omega)
      obtain ⟨h1, _, h3, _⟩ := digitChar_facts (n % 10) (Nat.mod_lt n (by decide))
      rw [if_neg hSmall, toDigitsCore_append]
      refine ⟨?_, by simp, ?_, ?_⟩
      · intro c hc
        rcases List.mem_append.mp hc with hc | hc
        · exact g1 c hc
        · rw [List.mem_singleton.mp hc]
          exact h1
      · rw [digitsValue_append, g3, h3]
        omega
      · intro hHead
        exfalso
        rw [List.head?_append_of_ne_nil _ g2] at hHead
        obtain ⟨_, _, k3, k4⟩ := ih (n / 10) hDiv fuel (by omega)
        rw [k4 hHead] at k3
        simp [digitsValue] at k3
        omega

theorem toDigits_facts (n : Nat) :
    (∀ c ∈ Nat.toDigits 10 n, isDigit c = true) ∧
    Nat.toDigits 10 n ≠ [] ∧
    digitsValue (Nat.toDigits 10 n) = n ∧
    ((Nat.toDigits 10 n).head? = some '0' → (Nat.toDigits 10 n).length = 1) := by
  obtain ⟨h1, h2, h3, h4⟩ := toDigitsCore_facts n (n + 1) (by omega)
  refine ⟨h1, h2, h3, ?_⟩
  intro hHead
  have := h4 hHead
  simp only [Nat.toDigits]
  rw [this]
  rfl


theorem Terminator.facts {c : Char} (h : Terminator c) :
    isDigit c = false ∧ c ≠ '.' ∧ c ≠ 'e' ∧ c ≠ 'E' ∧ isWhitespace c = false ∧ c ≠ '-' := by
  rcases h with h | h <;> subst h <;> decide

theorem isDigit_ne_minus {d : Char} (h : isDigit d = true) : d ≠ '-' := by
  intro e
  subst e
  revert h
  decide

theorem parseNumber_digits (digits : List Char) (c : Char) (rest : List Char)
    (hAll : ∀ d ∈ digits, isDigit d = true) (hNe : digits ≠ [])
    (hLead : digits.head? = some '0' → digits.length = 1) (hc : Terminator c) :
    parseNumber (digits ++ c :: rest) = some (Json.num (digitsValue digits) 0, c :: rest) := by
  obtain ⟨h1, h2, h3, h4, _, _⟩ := hc.facts
  obtain ⟨d, ds, rfl⟩ : ∃ d ds, digits = d :: ds := List.exists_cons_of_ne_nil hNe
  have hd : d ≠ '-' := isDigit_ne_minus (hAll d (List.mem_cons_self _ _))
  have hTake : List.takeWhile isDigit (d :: ds ++ c :: rest) = d :: ds := by
    rw [List.takeWhile_append_of_pos hAll]
    simp [h1]
  have hDrop : List.dropWhile isDigit (d :: ds ++ c :: rest) = c :: rest := by
    rw [List.dropWhile_append_of_pos hAll]
    simp [h1]
  have hHead : (d :: ds ++ c :: rest).head? = some d := rfl
  have hLead2 : ¬ ((d :: ds).head? = some '0' ∧ (d :: ds).length ≠ 1) := by
    intro h
    exact h.2 (hLead h.1)
  simp only [parseNumber, hHead, Option.some.injEq, hd, if_false, hTake, hDrop]
  simp only [List.head?_cons, Option.some.injEq, h2, h3, h4, if_false, false_and, or_self,
    false_or, List.append_nil, List.length_nil] at hLead2 ⊢
  have hZero : digitsValue [] = 0 := rfl
  have hLead3 : d = '0' → ds = [] := by
    intro h
    simpa using hLead (by simp [h])
  simp only [hZero]
  simp
  exact hLead3

theorem parseNumber_intText (n : Int) (c : Char) (rest : List Char) (hc : Terminator c) :
    parseNumber (intText n ++ c :: rest) = some (Json.num n 0, c :: rest) := by
  cases n with
  | ofNat m =>
    obtain ⟨hAll, hNe, hVal, hLead⟩ := toDigits_facts m
    simp only [intText]
    rw [parseNumber_digits _ c rest hAll hNe hLead hc, hVal]
    rfl
  | negSucc m =>
    obtain ⟨hAll, hNe, hVal, hLead⟩ := toDigits_facts (m + 1)
    obtain ⟨h1, h2, h3, h4, _, _⟩ := hc.facts
    have hTake : List.takeWhile isDigit (Nat.toDigits 10 (m + 1) ++ c :: rest) =
        Nat.toDigits 10 (m + 1) := by
      rw [List.takeWhile_append_of_pos hAll]
      simp [h1]
    have hDrop : List.dropWhile isDigit (Nat.toDigits 10 (m + 1) ++ c :: rest) = c :: rest := by
      rw [List.dropWhile_append_of_pos hAll]
      simp [h1]
    have hLead2 : ¬ ((Nat.toDigits 10 (m + 1)).head? = some '0' ∧
        (Nat.toDigits 10 (m + 1)).length ≠ 1) := by
      intro h
      exact h.2 (hLead h.1)
    simp only [intText, List.cons_append, parseNumber, List.head?_cons, if_true, List.tail_cons,
      hTake, hDrop]
    simp only [List.head?_cons, Option.some.injEq, h2, h3, h4, if_false, false_and, or_self,
      false_or, List.append_nil, List.length_nil, hNe, hLead2, hVal]
    have hZero : digitsValue [] = 0 := rfl
    simp [Int.negSucc_eq, hZero]


theorem intText_head (n : Int) :
    ∃ d ds, intText n = d :: ds ∧ (isDigit d = true ∨ d = '-') := by
  cases n with
  | ofNat m =>
    obtain ⟨hAll, hNe, _, _⟩ := toDigits_facts m
    obtain ⟨d, ds, h⟩ := List.exists_cons_of_ne_nil hNe
    refine ⟨d, ds, h, Or.inl (hAll d ?_)⟩
    rw [h]
    exact List.mem_cons_self _ _
  | negSucc m => exact ⟨'-', Nat.toDigits 10 (m + 1), rfl, Or.inr rfl⟩

theorem number_start {d : Char} (h : isDigit d = true ∨ d = '-') :
    isWhitespace d = false ∧ d ≠ lbrace ∧ d ≠ '[' ∧ d ≠ quote ∧ d ≠ 'n' ∧ d ≠ 't' ∧
      d ≠ 'f' := by
  rcases h with h | h
  · have key : ∀ x : Char, isDigit x = false → d ≠ x := by
      intro x hx e
      rw [e, hx] at h
      exact Bool.false_ne_true h
    refine ⟨?_, key _ (by decide), key _ (by decide), key _ (by decide), key _ (by decide),
      key _ (by decide), key _ (by decide)⟩
    simp only [isWhitespace, Bool.or_eq_false_iff, decide_eq_false_iff_not]
    exact ⟨⟨⟨key _ (by decide), key _ (by decide)⟩, key _ (by decide)⟩, key _ (by decide)⟩
  · subst h
    decide

theorem parseValue_number (fuel : Nat) (n : Int) (c : Char) (rest : List Char)
    (hc : Terminator c) :
    parseValue (fuel + 1) (render (Json.num n 0) ++ c :: rest) =
      some (Json.num n 0, c :: rest) := by
  obtain ⟨d, ds, hText, hd⟩ := intText_head n
  obtain ⟨h1, h2, h3, h4, h5, h6, h7⟩ := number_start hd
  have hRender : render (Json.num n 0) = intText n := by simp [render]
  rw [hRender, ← parseNumber_intText n c rest hc, hText, parseValue.eq_def]
  simp [skipWhitespace_of_not _ _ h1, h2, h3, h4, h5, h6, h7]

theorem renderMembers_cons (key : String) (v : Json) (members : List (String × Json)) :
    renderMembers ((key, v) :: members) =
      quote :: (escapeChars key.toList ++ quote :: ':' :: (render v ++
        (match members with
          | [] => []
          | _ :: _ => ',' :: renderMembers members))) := by
  rw [renderMembers.eq_def]
  cases members <;> simp [quoteString]

theorem parseMembers_renderMembers (pv : List Char → Option (Json × List Char))
    (members : List (String × Json)) :
    ∀ (acc : List (String × Json)) (fuel : Nat) (rest : List Char),
      members ≠ [] → members.length ≤ fuel →
      (∀ m ∈ members, ∀ (c : Char) (tail : List Char), Terminator c →
        pv (render m.2 ++ c :: tail) = some (m.2, c :: tail)) →
      parseMembers pv fuel acc (renderMembers members ++ rbrace :: rest) =
        some (Json.obj (members.foldl (fun a m => setMember a m.1 m.2) acc), rest) := by
  have hq : isWhitespace quote = false := by decide
  have hcolon : isWhitespace ':' = false := by decide
  have hcomma : isWhitespace ',' = false := by decide
  have hrb : isWhitespace rbrace = false := by decide
  have hne : rbrace ≠ ',' := by decide
  induction members with
  | nil => intro _ _ _ h; exact absurd rfl h
  | cons m tl ih =>
    intro acc fuel rest _ hFuel hpv
    obtain ⟨key, v⟩ := m
    obtain ⟨fuel, rfl⟩ : ∃ f, fuel = f + 1 := ⟨fuel - 1, by simp at hFuel; omega⟩
    have hv := hpv (key, v) (List.mem_cons_self _ _)
    cases tl with
    | nil =>
      rw [renderMembers_cons, parseMembers]
      simp only [List.cons_append, List.append_assoc, List.nil_append,
        skipWhitespace_of_not _ _ hq, if_true, parseString_quoteString,
        skipWhitespace_of_not _ _ hcolon, hv rbrace rest (Or.inr rfl),
        skipWhitespace_of_not _ _ hrb, if_neg hne, List.foldl_cons, List.foldl_nil]
    | cons m2 tl2 =>
      have hRest := ih (setMember acc key v) fuel rest (by simp)
        (by simp at hFuel ⊢; omega)
        (fun m hm => hpv m (List.mem_cons_of_mem _ hm))
      rw [renderMembers_cons, parseMembers]
      simp only [List.cons_append, List.append_assoc,
        skipWhitespace_of_not _ _ hq, if_true, parseString_quoteString,
        skipWhitespace_of_not _ _ hcolon,
        hv ',' (renderMembers (m2 :: tl2) ++ rbrace :: rest) (Or.inl rfl),
        skipWhitespace_of_not _ _ hcomma, hRest, List.foldl_cons]


theorem setMember_of_not_mem (acc : List (String × Json)) (key : String) (v : Json)
    (h : key ∉ acc.map Prod.fst) : setMember acc key v = acc ++ [(key, v)] := by
  induction acc with
  | nil => simp [setMember]
  | cons m rest ih =>
    obtain ⟨k, w⟩ := m
    simp only [List.map_cons, List.mem_cons, not_or] at h
    have hk : ¬ k = key := fun e => h.1 e.symm
    simp [setMember, hk, ih h.2]

theorem foldl_setMember (members : List (String × Json)) :
    ∀ acc : List (String × Json), ((acc ++ members).map Prod.fst).Nodup →
      members.foldl (fun a m => setMember a m.1 m.2) acc = acc ++ members := by
  induction members with
  | nil => intro acc _; simp
  | cons m rest ih =>
    intro acc hNodup
    have hNot : m.1 ∉ acc.map Prod.fst := by
      intro hIn
      rw [List.map_append, List.map_cons] at hNodup
      have := (List.nodup_append.mp hNodup).2.2
      exact this hIn (List.mem_cons_self _ _)
    rw [List.foldl_cons, setMember_of_not_mem acc m.1 m.2 hNot, ih]
    · simp
    · simpa using hNodup

theorem length_renderMembers (members : List (String × Json)) :
    members.length ≤ (renderMembers members).length := by
  induction members with
  | nil => simp
  | cons m rest ih =>
    obtain ⟨key, v⟩ := m
    rw [renderMembers_cons]
    cases rest with
    | nil => simp
    | cons m2 rest2 =>
      simp only [List.length_cons, List.length_append] at ih ⊢
      omega

theorem parseValue_obj (fuel : Nat) (members : List (String × Json)) (tail : List Char)
    (hNodup : (members.map Prod.fst).Nodup)
    (hpv : ∀ m ∈ members, ∀ (c : Char) (rest : List Char), Terminator c →
      parseValue fuel (render m.2 ++ c :: rest) = some (m.2, c :: rest)) :
    parseValue (fuel + 1) (render (Json.obj members) ++ tail) =
      some (Json.obj members, tail) := by
  have hlb : isWhitespace lbrace = false := by decide
  have hrb : isWhitespace rbrace = false := by decide
  have hq : isWhitespace quote = false := by decide
  have hqr : quote ≠ rbrace := by decide
  have hRender : render (Json.obj members) ++ tail =
      lbrace :: (renderMembers members ++ rbrace :: tail) := by
    simp [render]
  rw [hRender, parseValue.eq_def]
  cases members with
  | nil =>
    simp [skipWhitespace_of_not _ _ hlb, skipWhitespace_of_not _ _ hrb, renderMembers]
  | cons m rest =>
    obtain ⟨key, v⟩ := m
    have hParse := parseMembers_renderMembers (parseValue fuel) ((key, v) :: rest) []
      (renderMembers ((key, v) :: rest) ++ rbrace :: tail).length tail (by simp)
      (by
        have := length_renderMembers ((key, v) :: rest)
        simp only [List.length_append] at this ⊢
        omega) hpv
    rw [foldl_setMember _ [] (by simpa using hNodup)] at hParse
    simp only [skipWhitespace_of_not _ _ hlb, if_true]
    rw [renderMembers_cons] at hParse ⊢
    simp only [List.cons_append, skipWhitespace_of_not _ _ hq, if_neg hqr]
    simpa using hParse

theorem parseValue_table (fuel : Nat) (table : FrequencyTable) (tail : List Char)
    (hNodup : table.keys.Nodup) :
    parseValue (fuel + 2) (render table.toJson ++ tail) = some (table.toJson, tail) := by
  apply parseValue_obj
  · simpa [FrequencyTable.keys, List.map_map, Function.comp_def] using hNodup
  · intro m hm c rest hc
    obtain ⟨entry, _, rfl⟩ := List.mem_map.mp hm
    exact parseValue_number fuel _ c rest hc

theorem parseValue_surveyData (fuel : Nat) (surveyData : SurveyData) (tail : List Char)
    (hWell : surveyData.WellFormed) :
    parseValue (fuel + 3) (render surveyData.toJson ++ tail) =
      some (surveyData.toJson, tail) := by
  apply parseValue_obj
  · simp only [List.map_cons, List.map_nil]
    decide
  · intro m hm c rest _
    simp only [List.mem_cons, List.mem_singleton, List.not_mem_nil, or_false] at hm
    rcases hm with h | h | h | h | h | h <;> subst h
    · exact parseValue_table fuel _ _ (hWell QuestionId.age)
    · exact parseValue_table fuel _ _ (hWell QuestionId.preference)
    · exact parseValue_table fuel _ _ (hWell QuestionId.concerns)
    · exact parseValue_table fuel _ _ (hWell QuestionId.remedies)
    · exact parseValue_table fuel _ _ (hWell QuestionId.exercise)
    · exact parseValue_number (fuel + 1) _ c rest (by assumption)

theorem parse_stringify (surveyData : SurveyData) (hWell : surveyData.WellFormed) :
    parse (stringify surveyData.toJson) = some surveyData.toJson := by
  have hLen : 2 ≤ (render surveyData.toJson).length := by
    simp [SurveyData.toJson, render]
  obtain ⟨fuel, hFuel⟩ : ∃ f, (render surveyData.toJson).length + 1 = f + 3 :=
    ⟨(render surveyData.toJson).length - 2, by omega⟩
  have hParse := parseValue_surveyData fuel surveyData [] hWell
  rw [List.append_nil] at hParse
  simp only [parse, stringify, String.length, String.toList, hFuel, hParse, skipWhitespace,
    if_true]

theorem stringify_emptySurveyData :
    stringify emptySurveyData.toJson =
      "\x7b\x22age\x22:\x7b\x7d,\x22preference\x22:\x7b\x7d,\x22concerns\x22:\x7b\x7d,\x22remedies\x22:\x7b\x7d,\x22exercise\x22:\x7b\x7d,\x22totalResponses\x22:0\x7d" := by
  decide

theorem stringify_ne_empty (surveyData : SurveyData) : stringify surveyData.toJson ≠ "" := by
  intro h
  have := congrArg String.length h
  simp [stringify, SurveyData.toJson, render, String.length] at this

end JSON

theorem FrequencyTable.table_toJson_injective (first second : FrequencyTable)
    (h : first.toJson = second.toJson) : first = second := by
  simp only [FrequencyTable.toJson, Json.obj.injEq] at h
  refine List.map_injective_iff.mpr ?_ h
  intro a b hab
  simp only [Prod.mk.injEq, Json.num.injEq, Int.natCast_inj, and_true] at hab
  exact Prod.ext hab.1 hab.2

theorem SurveyData.state_toJson_injective (first second : SurveyData)
    (h : first.toJson = second.toJson) : first = second := by
  simp only [SurveyData.toJson, Json.obj.injEq, List.cons.injEq, Prod.mk.injEq, true_and,
    Json.num.injEq, and_true] at h
  obtain ⟨h1, h2, h3, h4, h5, h6⟩ := h
  cases first
  cases second
  simp only [SurveyData.mk.injEq]
  exact ⟨FrequencyTable.table_toJson_injective _ _ h1, FrequencyTable.table_toJson_injective _ _ h2,
    FrequencyTable.table_toJson_injective _ _ h3, FrequencyTable.table_toJson_injective _ _ h4,
    FrequencyTable.table_toJson_injective _ _ h5, h6⟩

theorem LocalStorage.getItem_put (items : List (String × String)) (key value : String) :
    (List.find? (fun item => decide (item.1 = key)) (LocalStorage.put items key value)).map
      Prod.snd = some value := by
  induction items with
  | nil => simp [LocalStorage.put]
  | cons item rest ih =>
    obtain ⟨k, v⟩ := item
    by_cases h : k = key
    · simp [LocalStorage.put, h]
    · simp [LocalStorage.put, h, List.find?_cons, ih]

/-! ## Loading what was saved -/

/-- C6: for every state whose five tables are mappings from labels to counts, if the storage
accepts the write of `saveSurveyData`, then `loadSurveyData` on the storage left by
`saveSurveyData` returns the saved state: the same five tables with the same labels, counts
and label order, and the same `totalResponses`; no other state is equal to what is loaded,
and saving does not change the state in memory. -/
theorem loadSurveyData_saveSurveyData (this : HealthcareSurvey3D)
    (hWell : this.surveyData.WellFormed)
    (hAccept : (this.localStorage.setItem storageKey
      (JSON.stringify this.surveyData.toJson)).isSome = true) :
    loadSurveyData this.saveSurveyData.localStorage = this.surveyData.toJson ∧
    (∀ other : SurveyData,
      loadSurveyData this.saveSurveyData.localStorage = other.toJson ↔
        other = this.surveyData) ∧
    this.saveSurveyData.surveyData = this.surveyData := by
  obtain ⟨stored, hStored⟩ := Option.isSome_iff_exists.mp hAccept
  have hSave : this.saveSurveyData = { this with localStorage := stored } := by
    simp only [HealthcareSurvey3D.saveSurveyData, hStored]
  have hItems : stored.items =
      LocalStorage.put this.localStorage.items storageKey
        (JSON.stringify this.surveyData.toJson) := by
    simp only [LocalStorage.setItem] at hStored
    split at hStored
    · simp only [Option.some.injEq] at hStored
      rw [← hStored]
    · exact absurd hStored (by simp)
  have hGet : stored.getItem storageKey = some (JSON.stringify this.surveyData.toJson) := by
    rw [LocalStorage.getItem, hItems]
    exact LocalStorage.getItem_put _ _ _
  have hLoad : loadSurveyData stored = this.surveyData.toJson := by
    simp only [loadSurveyData, hGet, JSON.parse_stringify _ hWell]
    rw [if_pos (JSON.stringify_ne_empty _)]
  rw [hSave]
  refine ⟨hLoad, ?_, rfl⟩
  intro other
  constructor
  · intro h
    exact SurveyData.state_toJson_injective _ _ (h.symm.trans hLoad)
  · intro h
    rw [h]
    exact hLoad

set_option maxRecDepth 100000 in
theorem loadSurveyData_saveSurveyData_witness :
    loadSurveyData
        (HealthcareSurvey3D.mk (replay emptySurveyData sampleResponses)
          (LocalStorage.mk [("theme", "dark")] 5000) [] []).saveSurveyData.localStorage =
      (replay emptySurveyData sampleResponses).toJson :=
  (loadSurveyData_saveSurveyData
    (HealthcareSurvey3D.mk (replay emptySurveyData sampleResponses)
      (LocalStorage.mk [("theme", "dark")] 5000) [] [])
    (by intro key; cases key <;> decide) (by decide)).1

/-- C7: `loadSurveyData` returns the fresh empty state, all five tables empty and
`totalResponses = 0`, whenever nothing is stored under the key or the stored string does not
parse as JSON; it is a total function, so nothing is raised to the caller. -/
theorem loadSurveyData_fallback (localStorage : LocalStorage)
    (h : localStorage.getItem storageKey = none ∨
      ∃ text : String, localStorage.getItem storageKey = some text ∧ JSON.parse text = none) :
    loadSurveyData localStorage = emptySurveyData.toJson ∧
    emptySurveyData.toJson =
      Json.obj [("age", Json.obj []), ("preference", Json.obj []), ("concerns", Json.obj []),
        ("remedies", Json.obj []), ("exercise", Json.obj []),
        ("totalResponses", Json.num 0 0)] := by
  refine ⟨?_, rfl⟩
  rcases h with h | ⟨text, hText, hParse⟩
  · simp [loadSurveyData, h]
  · simp only [loadSurveyData, hText, hParse]
    split <;> rfl

theorem loadSurveyData_fallback_witness :
    loadSurveyData (LocalStorage.mk [("healthcare3DSurveyData", "not json")] 5000) =
      emptySurveyData.toJson ∧
    loadSurveyData (LocalStorage.mk [] 5000) = emptySurveyData.toJson :=
  ⟨(loadSurveyData_fallback (LocalStorage.mk [("healthcare3DSurveyData", "not json")] 5000)
      (Or.inr ⟨"not json", by decide, Option.isNone_iff_eq_none.mp (by decide)⟩)).1,
    (loadSurveyData_fallback (LocalStorage.mk [] 5000) (Or.inl (by decide))).1⟩

/-! ## Seeding, chart kinds, failed writes and order of responses -/

/-- C11: `addSampleData` seeds only when `totalResponses` is 0: for every state with
`totalResponses` different from 0 it returns the state as it was, tables, `totalResponses` and
storage included; for a state with `totalResponses = 0` the result is `updateSurveyData`
applied to the eight sample responses in their order, followed by one `saveSurveyData`. -/
theorem addSampleData_seeds (this : HealthcareSurvey3D) :
    (this.surveyData.totalResponses ≠ 0 →
      this.addSampleData = this ∧
      this.addSampleData.surveyData = this.surveyData ∧
      this.addSampleData.localStorage = this.localStorage) ∧
    (this.surveyData.totalResponses = 0 →
      this.addSampleData =
        HealthcareSurvey3D.saveSurveyData
          { this with surveyData := replay this.surveyData sampleResponses } ∧
      this.addSampleData.surveyData = replay this.surveyData sampleResponses ∧
      this.addSampleData.surveyData.totalResponses = 8) ∧
    sampleResponses.length = 8 := by
  refine ⟨?_, ?_, rfl⟩
  · intro h
    have hSame : this.addSampleData = this := by
      simp [HealthcareSurvey3D.addSampleData, h]
    rw [hSame]
    exact ⟨rfl, rfl, rfl⟩
  · intro h
    have hSeed : this.addSampleData =
        HealthcareSurvey3D.saveSurveyData
          { this with surveyData := replay this.surveyData sampleResponses } := by
      simp [HealthcareSurvey3D.addSampleData, h, replay]
    have hData : this.addSampleData.surveyData = replay this.surveyData sampleResponses := by
      rw [hSeed]
      simp only [HealthcareSurvey3D.saveSurveyData]
      split <;> rfl
    refine ⟨hSeed, hData, ?_⟩
    rw [hData, totalResponses_replay, h]
    rfl

theorem addSampleData_seeds_witness :
    (HealthcareSurvey3D.mk (updateSurveyData emptySurveyData
        (Response.mk "56+" "Ayurveda" "Mental Health" "Often" "Daily"))
      (LocalStorage.mk [] 5000) [] []).addSampleData.surveyData =
      updateSurveyData emptySurveyData
        (Response.mk "56+" "Ayurveda" "Mental Health" "Often" "Daily") ∧
    (HealthcareSurvey3D.mk emptySurveyData (LocalStorage.mk [] 5000) [] []).addSampleData.surveyData
      = replay emptySurveyData sampleResponses :=
  ⟨((addSampleData_seeds (HealthcareSurvey3D.mk (updateSurveyData emptySurveyData
        (Response.mk "56+" "Ayurveda" "Mental Health" "Often" "Daily"))
      (LocalStorage.mk [] 5000) [] [])).1 (by decide)).2.1,
    ((addSampleData_seeds
      (HealthcareSurvey3D.mk emptySurveyData (LocalStorage.mk [] 5000) [] [])).2.1
        (by decide)).2.1⟩

/-- C12: the kind of chart depends on the chart id alone: for every dataset `getChartConfig`
returns type `doughnut` for `ageChart` and `remediesChart` and type `bar` for
`preferenceChart`, `concernsChart` and `exerciseChart`, and in every case the labels, the data
values and the background colors of the configuration are those of the dataset passed in, in
the same order. -/
theorem getChartConfig_kind (chartData : ChartData) :
    (getChartConfig "ageChart" chartData).type = "doughnut" ∧
    (getChartConfig "remediesChart" chartData).type = "doughnut" ∧
    (getChartConfig "preferenceChart" chartData).type = "bar" ∧
    (getChartConfig "concernsChart" chartData).type = "bar" ∧
    (getChartConfig "exerciseChart" chartData).type = "bar" ∧
    (∀ key : QuestionId, (getChartConfig key.chartId chartData).type =
      if key = QuestionId.age ∨ key = QuestionId.remedies then "doughnut" else "bar") ∧
    (∀ (chartId : String) (other : ChartData),
      (getChartConfig chartId chartData).type = (getChartConfig chartId other).type) ∧
    (∀ chartId : String,
      (getChartConfig chartId chartData).labels = chartData.labels ∧
      (getChartConfig chartId chartData).data = chartData.values ∧
      (getChartConfig chartId chartData).backgroundColor = chartData.colors) := by
  refine ⟨by simp [getChartConfig], by simp [getChartConfig], by simp [getChartConfig],
    by simp [getChartConfig], by simp [getChartConfig], ?_, ?_, ?_⟩
  · intro key
    cases key <;> simp [getChartConfig, QuestionId.chartId]
  · intro chartId other
    simp only [getChartConfig]
    split <;> rfl
  · intro chartId
    simp only [getChartConfig]
    split <;> exact ⟨rfl, rfl, rfl⟩

/-- C13: when the write to storage fails, `saveSurveyData` returns normally and leaves the
object as it was; whether or not the write succeeds, `saveSurveyData` leaves the survey state
in memory, the alerts and the scheduled submissions as they were, so the state after a
submission callback is the recorded one even when its save failed. -/
theorem saveSurveyData_keeps_state (this : HealthcareSurvey3D) :
    (this.localStorage.setItem storageKey (JSON.stringify this.surveyData.toJson) = none →
      this.saveSurveyData = this) ∧
    this.saveSurveyData.surveyData = this.surveyData ∧
    this.saveSurveyData.alerts = this.alerts ∧
    this.saveSurveyData.timeouts = this.timeouts ∧
    (∀ formData : Response,
      (this.submitCallback formData).surveyData = updateSurveyData this.surveyData formData) := by
  have hKeep : ∀ state : HealthcareSurvey3D,
      state.saveSurveyData.surveyData = state.surveyData ∧
      state.saveSurveyData.alerts = state.alerts ∧
      state.saveSurveyData.timeouts = state.timeouts := by
    intro state
    simp only [HealthcareSurvey3D.saveSurveyData]
    split <;> exact ⟨rfl, rfl, rfl⟩
  refine ⟨?_, (hKeep this).1, (hKeep this).2.1, (hKeep this).2.2, ?_⟩
  · intro h
    simp only [HealthcareSurvey3D.saveSurveyData, h]
  · intro formData
    simp only [HealthcareSurvey3D.submitCallback]
    exact (hKeep _).1

theorem saveSurveyData_keeps_state_witness :
    (HealthcareSurvey3D.mk emptySurveyData (LocalStorage.mk [] 10) [] []).saveSurveyData =
      HealthcareSurvey3D.mk emptySurveyData (LocalStorage.mk [] 10) [] [] :=
  (saveSurveyData_keeps_state
    (HealthcareSurvey3D.mk emptySurveyData (LocalStorage.mk [] 10) [] [])).1 (by decide)

theorem get_increment (table : FrequencyTable) (answer label : String) :
    (table.increment answer).get label =
      if label = answer then some (orZero (table.get answer) + 1) else table.get label := by
  by_cases h : label = answer
  · subst h
    rw [if_pos rfl, FrequencyTable.increment, FrequencyTable.get_set_same]
  · rw [if_neg h, FrequencyTable.increment, FrequencyTable.get_set_other _ _ _ _ h]

theorem get_foldl_increment (answers : List String) (table : FrequencyTable) (label : String) :
    (answers.foldl FrequencyTable.increment table).get label =
      if answers.count label = 0 then table.get label
      else some (orZero (table.get label) + answers.count label) := by
  induction answers generalizing table with
  | nil => simp
  | cons answer rest ih =>
    rw [List.foldl_cons, ih, get_increment]
    by_cases h : label = answer
    · subst h
      have hOr : orZero (some (orZero (FrequencyTable.get table label) + 1)) =
          orZero (FrequencyTable.get table label) + 1 := by
        simp [orZero]
      rw [if_pos rfl, hOr, List.count_cons_self, if_neg (Nat.succ_ne_zero _)]
      by_cases hRest : List.count label rest = 0
      · rw [if_pos hRest, hRest]
      · rw [if_neg hRest]
        congr 1
        omega
    · rw [if_neg h, List.count_cons_of_ne h]

/-- C14: the counts do not depend on the order of the responses: for every starting state and
every two sequences of responses that are permutations of each other, replaying either with
`updateSurveyData` gives the same `totalResponses` and, for each of the five tables, the same
count (or absence) for every label, hence the same set of labels. -/
theorem replay_perm (surveyData : SurveyData) (first second : List Response)
    (hPerm : first.Perm second) :
    (replay surveyData first).totalResponses = (replay surveyData second).totalResponses ∧
    ∀ key : QuestionId,
      (∀ label : String,
        ((replay surveyData first).table key).get label =
          ((replay surveyData second).table key).get label) ∧
      (∀ label : String,
        label ∈ ((replay surveyData first).table key).keys ↔
          label ∈ ((replay surveyData second).table key).keys) := by
  have hGet : ∀ (key : QuestionId) (label : String),
      ((replay surveyData first).table key).get label =
        ((replay surveyData second).table key).get label := by
    intro key label
    rw [table_replay, table_replay, get_foldl_increment, get_foldl_increment,
      (hPerm.map (fun formData => formData.get key)).count_eq label]
  refine ⟨?_, fun key => ⟨hGet key, fun label => ?_⟩⟩
  · rw [totalResponses_replay, totalResponses_replay, hPerm.length_eq]
  · have hFirst := FrequencyTable.get_eq_none_iff ((replay surveyData first).table key) label
    have hSecond := FrequencyTable.get_eq_none_iff ((replay surveyData second).table key) label
    rw [hGet key label] at hFirst
    constructor
    · intro h
      by_contra hNot
      exact (hFirst.mp (hSecond.mpr hNot)) h
    · intro h
      by_contra hNot
      exact (hSecond.mp (hFirst.mpr hNot)) h

theorem replay_perm_witness :
    (replay emptySurveyData sampleResponses.reverse).totalResponses =
      (replay emptySurveyData sampleResponses).totalResponses ∧
    ((replay emptySurveyData sampleResponses.reverse).table QuestionId.age).get "26-35" =
      ((replay emptySurveyData sampleResponses).table QuestionId.age).get "26-35" ∧
    (replay emptySurveyData sampleResponses.reverse).age ≠
      (replay emptySurveyData sampleResponses).age :=
  have h := replay_perm emptySurveyData sampleResponses.reverse sampleResponses
    (List.reverse_perm sampleResponses)
  ⟨h.1, (h.2 QuestionId.age).1 "26-35", by decide⟩

/-! ## Plain objects agree with tables of counts on ordinary labels -/

theorem addOne_of_range (n : Int) (hLow : -9007199254740992 ≤ n) (hHigh : n < 9007199254740992) :
    addOne n = n + 1 := by
  simp [addOne, hLow, hHigh]

theorem getOwn_toObject (table : FrequencyTable) (label : String) :
    table.toObject.getOwn label = (table.get label).map (fun count => JsValue.num (count : Int)) := by
  induction table with
  | nil => rfl
  | cons entry rest ih =>
    obtain ⟨k, c⟩ := entry
    by_cases h : k = label
    · simp [FrequencyTable.toObject, JsObject.getOwn, FrequencyTable.get, h]
    · simp only [FrequencyTable.toObject] at ih
      simp [FrequencyTable.toObject, JsObject.getOwn, FrequencyTable.get, h, ih]

theorem replace_toObject (table : FrequencyTable) (label : String) (count : Nat)
    (h : label ∈ table.keys) :
    table.toObject.replace label (JsValue.num (count : Int)) = (table.set label count).toObject := by
  induction table with
  | nil => simp [FrequencyTable.keys] at h
  | cons entry rest ih =>
    obtain ⟨k, c⟩ := entry
    by_cases hk : k = label
    · simp [FrequencyTable.toObject, JsObject.replace, FrequencyTable.set, hk]
    · have hRest : label ∈ FrequencyTable.keys rest := by
        simp only [FrequencyTable.keys, List.map_cons, List.mem_cons] at h
        rcases h with h | h
        · exact absurd h.symm hk
        · exact h
      have := ih hRest
      simp only [FrequencyTable.toObject] at this
      simp [FrequencyTable.toObject, JsObject.replace, FrequencyTable.set, hk, this]

theorem get_some_mem (table : FrequencyTable) (label : String) (count : Nat)
    (h : table.get label = some count) : (label, count) ∈ table := by
  induction table with
  | nil => simp [FrequencyTable.get] at h
  | cons entry rest ih =>
    obtain ⟨k, c⟩ := entry
    by_cases hk : k = label
    · simp only [FrequencyTable.get, hk, if_true, Option.some.injEq] at h
      simp [hk, h]
    · simp only [FrequencyTable.get, hk, if_false] at h
      exact List.mem_cons_of_mem _ (ih h)

theorem mem_set (table : FrequencyTable) (label : String) (count : Nat) (entry : String × Nat)
    (h : entry ∈ table.set label count) : entry ∈ table ∨ entry = (label, count) := by
  induction table with
  | nil =>
    simp only [FrequencyTable.set, List.mem_singleton] at h
    exact Or.inr h
  | cons first rest ih =>
    obtain ⟨k, c⟩ := first
    by_cases hk : k = label
    · simp only [FrequencyTable.set, hk, if_true, List.mem_cons] at h
      rcases h with h | h
      · exact Or.inr h
      · exact Or.inl (List.mem_cons_of_mem _ h)
    · simp only [FrequencyTable.set, hk, if_false, List.mem_cons] at h
      rcases h with h | h
      · exact Or.inl (by rw [h]; exact List.mem_cons_self _ _)
      · rcases ih h with h2 | h2
        · exact Or.inl (List.mem_cons_of_mem _ h2)
        · exact Or.inr h2

theorem increment_toObject (table : FrequencyTable) (label : String)
    (hLabel : label ∈ table.keys ∨ label ∉ objectPrototypeNames)
    (hCount : ∀ count, table.get label = some count → count < 9007199254740992) :
    table.toObject.increment label = (table.increment label).toObject := by
  cases hGet : table.get label with
  | none =>
    have hOut : label ∉ table.keys := (FrequencyTable.get_eq_none_iff table label).mp hGet
    have hPlain : label ∉ objectPrototypeNames := by
      rcases hLabel with h | h
      · exact absurd h hOut
      · exact h
    have hProto : label ≠ "__proto__" := by
      intro e
      rw [e] at hPlain
      exact hPlain (by decide)
    have hOwn : table.toObject.getOwn label = none := by
      rw [getOwn_toObject, hGet]
      rfl
    have hOne : addOne 0 = 1 := by decide
    simp only [JsObject.increment, JsObject.read, JsObject.write, hOwn, if_neg hPlain,
      if_neg hProto, orZeroPlusOne, hOne, FrequencyTable.increment, hGet, orZero]
    rw [FrequencyTable.set_of_not_mem _ _ _ hOut]
    simp [FrequencyTable.toObject]
  | some count =>
    have hIn : label ∈ table.keys := by
      by_contra hOut
      rw [(FrequencyTable.get_eq_none_iff table label).mpr hOut] at hGet
      exact absurd hGet (by simp)
    have hOwn : table.toObject.getOwn label = some (JsValue.num (count : Int)) := by
      rw [getOwn_toObject, hGet]
      rfl
    have hLt := hCount count hGet
    have hValue : orZeroPlusOne (JsRead.own (JsValue.num (count : Int))) =
        JsValue.num ((orZero (some count) + 1 : Nat) : Int) := by
      by_cases hZero : count = 0
      · subst hZero
        simp only [orZeroPlusOne, orZero]
        decide
      · have hNe : (count : Int) ≠ 0 := by exact_mod_cast hZero
        have hAdd : addOne (count : Int) = (count : Int) + 1 :=
          addOne_of_range _ (by omega) (by omega)
        simp [orZeroPlusOne, hNe, hAdd, orZero, hZero]
    simp only [JsObject.increment, JsObject.read, JsObject.write, hOwn, hValue,
      FrequencyTable.increment, hGet]
    exact replace_toObject table label _ hIn

theorem foldl_increment_toObject (answers : List String) :
    ∀ table : FrequencyTable,
      (∀ answer ∈ answers, answer ∉ objectPrototypeNames) →
      answers.length ≤ 9007199254740992 →
      (∀ entry ∈ table, entry.2 + answers.length ≤ 9007199254740992) →
      answers.foldl JsObject.increment table.toObject =
        (answers.foldl FrequencyTable.increment table).toObject := by
  induction answers with
  | nil => intro table _ _ _; rfl
  | cons answer rest ih =>
    intro table hLabels hLength hBound
    simp only [List.length_cons] at hLength hBound
    have hStep : table.toObject.increment answer = (table.increment answer).toObject := by
      apply increment_toObject
      · exact Or.inr (hLabels answer (List.mem_cons_self _ _))
      · intro count hGet
        have := hBound _ (get_some_mem table answer count hGet)
        simp only at this
        omega
    rw [List.foldl_cons, List.foldl_cons, hStep]
    apply ih
    · intro other hOther
      exact hLabels other (List.mem_cons_of_mem _ hOther)
    · omega
    · intro entry hEntry
      rcases mem_set table answer _ entry hEntry with h | h
      · have := hBound entry h
        omega
      · rw [h]
        simp only
        cases hGet : table.get answer with
        | none =>
          simp only [orZero]
          omega
        | some count =>
          have := hBound _ (get_some_mem table answer count hGet)
          simp only at this
          rw [orZero_eq]
          simp only [Option.getD_some]
          omega

theorem js_table_updateSurveyData (surveyData : JsSurveyData) (formData : Response)
    (key : QuestionId) :
    (Js.updateSurveyData surveyData formData).table key =
      (surveyData.table key).increment (formData.get key) := by
  cases key <;> rfl

theorem js_table_replay (responses : List Response) (surveyData : JsSurveyData)
    (key : QuestionId) :
    (Js.replay surveyData responses).table key =
      (responses.map (fun formData => formData.get key)).foldl JsObject.increment
        (surveyData.table key) := by
  induction responses generalizing surveyData with
  | nil => simp [Js.replay]
  | cons formData rest ih =>
    have := ih (Js.updateSurveyData surveyData formData)
    simp only [Js.replay, List.foldl_cons, List.map_cons] at this ⊢
    rw [this, js_table_updateSurveyData]

theorem js_totalResponses_replay (responses : List Response) :
    ∀ surveyData : JsSurveyData,
      -9007199254740992 ≤ surveyData.totalResponses →
      surveyData.totalResponses + responses.length ≤ 9007199254740992 →
      (Js.replay surveyData responses).totalResponses =
        surveyData.totalResponses + responses.length := by
  induction responses with
  | nil => intro surveyData _ _; simp [Js.replay]
  | cons formData rest ih =>
    intro surveyData hLow hHigh
    simp only [List.length_cons, Nat.cast_add, Nat.cast_one] at hHigh
    have hStep : (Js.updateSurveyData surveyData formData).totalResponses =
        surveyData.totalResponses + 1 := by
      show addOne surveyData.totalResponses = _
      exact addOne_of_range _ hLow (by omega)
    have := ih (Js.updateSurveyData surveyData formData) (by omega) (by omega)
    simp only [Js.replay, List.foldl_cons, List.length_cons] at this ⊢
    rw [this, hStep]
    push_cast
    omega

theorem table_toJs (surveyData : SurveyData) (key : QuestionId) :
    surveyData.toJs.table key = (surveyData.table key).toObject := by
  cases key <;> rfl

theorem jsSurveyData_eq (first second : JsSurveyData)
    (hTables : ∀ key : QuestionId, first.table key = second.table key)
    (hTotal : first.totalResponses = second.totalResponses) : first = second := by
  have h1 := hTables QuestionId.age
  have h2 := hTables QuestionId.preference
  have h3 := hTables QuestionId.concerns
  have h4 := hTables QuestionId.remedies
  have h5 := hTables QuestionId.exercise
  cases first
  cases second
  simp only [JsSurveyData.table] at h1 h2 h3 h4 h5
  simp only at hTotal
  simp [h1, h2, h3, h4, h5, hTotal]

theorem updateSurveyData_toJs (surveyData : SurveyData) (formData : Response)
    (hLabels : ∀ key : QuestionId,
      formData.get key ∈ (surveyData.table key).keys ∨
        formData.get key ∉ objectPrototypeNames)
    (hCounts : ∀ (key : QuestionId) (count : Nat),
      (surveyData.table key).get (formData.get key) = some count → count < 9007199254740992)
    (hLow : -9007199254740992 ≤ surveyData.totalResponses)
    (hHigh : surveyData.totalResponses < 9007199254740992) :
    Js.updateSurveyData surveyData.toJs formData =
      (updateSurveyData surveyData formData).toJs := by
  apply jsSurveyData_eq
  · intro key
    rw [js_table_updateSurveyData, table_toJs, table_toJs, table_updateSurveyData]
    exact increment_toObject _ _ (hLabels key) (hCounts key)
  · show addOne surveyData.totalResponses = surveyData.totalResponses + 1
    exact addOne_of_range _ hLow hHigh

/-- C1 (amended): for every state of the schema and every response such that, for each of the
five questions, the submitted label is already a label of the table or is not the name of a
member of `Object.prototype`, the old count of the label is below `2 ^ 53`, and
`totalResponses` lies between `-2 ^ 53` and `2 ^ 53 - 1`, `updateSurveyData` on plain objects
leaves in each table the submitted label with its old count plus 1, or with 1 when the label
was not in the table, leaves every other own property as it was, and makes `totalResponses`
one larger; on the empty state every table then holds the single submitted label with count 1
and `totalResponses` is 1. -/
theorem updateSurveyData_ordinary (surveyData : SurveyData) (formData : Response)
    (hLabels : ∀ key : QuestionId,
      formData.get key ∈ (surveyData.table key).keys ∨
        formData.get key ∉ objectPrototypeNames)
    (hCounts : ∀ (key : QuestionId) (count : Nat),
      (surveyData.table key).get (formData.get key) = some count → count < 9007199254740992)
    (hLow : -9007199254740992 ≤ surveyData.totalResponses)
    (hHigh : surveyData.totalResponses < 9007199254740992) :
    (∀ key : QuestionId,
      ((Js.updateSurveyData surveyData.toJs formData).table key).getOwn (formData.get key) =
        (match (surveyData.table key).get (formData.get key) with
          | some count => some (JsValue.num ((count : Int) + 1))
          | none => some (JsValue.num 1)) ∧
      ∀ other : String, other ≠ formData.get key →
        ((Js.updateSurveyData surveyData.toJs formData).table key).getOwn other =
          (surveyData.toJs.table key).getOwn other) ∧
    (Js.updateSurveyData surveyData.toJs formData).totalResponses =
      surveyData.toJs.totalResponses + 1 ∧
    (surveyData = emptySurveyData →
      Js.updateSurveyData surveyData.toJs formData =
        { age := [(formData.age, JsValue.num 1)],
          preference := [(formData.preference, JsValue.num 1)],
          concerns := [(formData.concerns, JsValue.num 1)],
          remedies := [(formData.remedies, JsValue.num 1)],
          exercise := [(formData.exercise, JsValue.num 1)], totalResponses := 1 }) := by
  have hRef := updateSurveyData_toJs surveyData formData hLabels hCounts hLow hHigh
  have hIdeal := updateSurveyData_records surveyData formData
  refine ⟨fun key => ⟨?_, fun other hOther => ?_⟩, ?_, ?_⟩
  · rw [hRef, table_toJs, getOwn_toObject, (hIdeal.1 key).1]
    cases (surveyData.table key).get (formData.get key) <;> simp
  · rw [hRef, table_toJs, table_toJs, getOwn_toObject, getOwn_toObject,
      (hIdeal.1 key).2 other hOther]
  · rw [hRef]
    exact hIdeal.2.1
  · intro hEmpty
    rw [hRef, hEmpty, hIdeal.2.2]
    rfl

theorem updateSurveyData_ordinary_witness :
    ((Js.updateSurveyData (replay emptySurveyData sampleResponses).toJs
        (Response.mk "56+" "Ayurveda" "Mental Health" "7" "Daily")).table
          QuestionId.age).getOwn "56+" = some (JsValue.num 2) ∧
    (Js.updateSurveyData (replay emptySurveyData sampleResponses).toJs
        (Response.mk "56+" "Ayurveda" "Mental Health" "7" "Daily")).totalResponses = 8 + 1 :=
  have hAll : ∀ key : QuestionId, ∀ entry ∈ (replay emptySurveyData sampleResponses).table key,
      entry.2 < 9007199254740992 := by
    intro key
    cases key <;> decide
  have h := updateSurveyData_ordinary (replay emptySurveyData sampleResponses)
    (Response.mk "56+" "Ayurveda" "Mental Health" "7" "Daily")
    (by intro key; cases key <;> decide)
    (fun key count hGet => hAll key _ (get_some_mem _ _ count hGet))
    (by decide) (by decide)
  ⟨(h.1 QuestionId.age).1, h.2.1⟩

set_option maxRecDepth 100000 in
/-- Counterexample to C1 as stated: on the empty state the label `constructor` is stored
with a string, not with the count 1, the label `__proto__` is not stored at all, and a
`totalResponses` of `2 ^ 53` is not made larger. -/
theorem updateSurveyData_inherited_label :
    (Js.updateSurveyData emptySurveyData.toJs (Response.mk "constructor" "a" "b" "c" "d")).age =
      [("constructor", JsValue.str "function Object() \x7b [native code] \x7d1")] ∧
    (Js.updateSurveyData emptySurveyData.toJs
        (Response.mk "constructor" "a" "b" "c" "d")).age.getOwn "constructor" ≠
      some (JsValue.num 1) ∧
    (Js.updateSurveyData emptySurveyData.toJs (Response.mk "__proto__" "a" "b" "c" "d")).age =
      [] ∧
    (Js.updateSurveyData
        (SurveyData.mk [] [] [] [] [] 9007199254740992).toJs
        (Response.mk "a" "b" "c" "d" "e")).totalResponses = 9007199254740992 := by
  decide

theorem total_toObject (table : FrequencyTable) :
    table.toObject.total = some ((table.total : Nat) : Int) := by
  induction table with
  | nil => rfl
  | cons entry rest ih =>
    obtain ⟨k, c⟩ := entry
    simp only [FrequencyTable.toObject] at ih
    simp [FrequencyTable.toObject, JsObject.total, FrequencyTable.total, ih]

theorem replay_toObject (responses : List Response) (key : QuestionId)
    (hLabels : ∀ formData ∈ responses, formData.get key ∉ objectPrototypeNames)
    (hLength : responses.length ≤ 9007199254740992) :
    (Js.replay emptySurveyData.toJs responses).table key =
      ((replay emptySurveyData responses).table key).toObject := by
  rw [js_table_replay, table_toJs, table_replay]
  apply foldl_increment_toObject
  · intro answer hAnswer
    obtain ⟨formData, hIn, rfl⟩ := List.mem_map.mp hAnswer
    exact hLabels formData hIn
  · simpa using hLength
  · intro entry hEntry
    cases key <;> simp [emptySurveyData, SurveyData.table] at hEntry

/-- C3 (amended): after replaying with `updateSurveyData`, from the empty state, any sequence
of at most `2 ^ 53` responses whose labels for a question are not names of members of
`Object.prototype`, `Object.entries` of the table of that question lists exactly the labels
answered for the question, each once, and the value stored with a label is the number of
responses that gave it; when moreover no answered label is an array index, the labels are
listed in the order of the position of their first occurrence in the sequence of answers. -/
theorem replay_tallies_ordinary (responses : List Response) (key : QuestionId)
    (hLabels : ∀ formData ∈ responses, formData.get key ∉ objectPrototypeNames)
    (hLength : responses.length ≤ 9007199254740992) :
    ((objectEntries ((Js.replay emptySurveyData.toJs responses).table key)).map
      Prod.fst).Nodup ∧
    (∀ label : String,
      label ∈ (objectEntries ((Js.replay emptySurveyData.toJs responses).table key)).map
          Prod.fst ↔
        label ∈ responses.map fun formData => formData.get key) ∧
    (∀ label : String,
      ((Js.replay emptySurveyData.toJs responses).table key).getOwn label =
        if label ∈ (responses.map fun formData => formData.get key) then
          some (JsValue.num
            (((responses.map fun formData => formData.get key).count label : Nat) : Int))
        else none) ∧
    ((∀ formData ∈ responses, arrayIndex (formData.get key) = none) →
      (((objectEntries ((Js.replay emptySurveyData.toJs responses).table key)).map
        Prod.fst).Pairwise
          (fun a b =>
            (responses.map fun formData => formData.get key).indexOf a <
              (responses.map fun formData => formData.get key).indexOf b)) ∧
      objectEntries ((Js.replay emptySurveyData.toJs responses).table key) =
        ((objectEntries ((Js.replay emptySurveyData.toJs responses).table key)).map
          Prod.fst).map
            (fun label =>
              (label, JsValue.num
                (((responses.map fun formData => formData.get key).count label : Nat) :
                  Int)))) := by
  obtain ⟨hOrder, hNodup, hMem, hEq, hGet⟩ := replay_tallies responses key
  have hTable := replay_toObject responses key hLabels hLength
  have hKeys : (((replay emptySurveyData responses).table key).toObject).map Prod.fst =
      ((replay emptySurveyData responses).table key).keys := by
    simp [FrequencyTable.toObject, FrequencyTable.keys, List.map_map, Function.comp_def]
  have hPerm : ((objectEntries
      (((replay emptySurveyData responses).table key).toObject)).map Prod.fst).Perm
      ((replay emptySurveyData responses).table key).keys := by
    rw [← hKeys]
    exact (objectEntries_perm _).map Prod.fst
  rw [hTable]
  refine ⟨hPerm.nodup_iff.mpr hNodup, fun label => ?_, fun label => ?_, fun hPlain => ?_⟩
  · rw [hPerm.mem_iff]
    exact hMem label
  · rw [getOwn_toObject, hGet label]
    split <;> rfl
  · have hNoIndex : ∀ entry ∈ ((replay emptySurveyData responses).table key).toObject,
        arrayIndex entry.1 = none := by
      intro entry hEntry
      have hKey : entry.1 ∈ ((replay emptySurveyData responses).table key).keys := by
        rw [← hKeys]
        exact List.mem_map_of_mem _ hEntry
      obtain ⟨formData, hIn, hAnswer⟩ := List.mem_map.mp ((hMem entry.1).mp hKey)
      rw [← hAnswer]
      exact hPlain formData hIn
    rw [objectEntries_of_no_index _ hNoIndex, hKeys]
    refine ⟨hOrder, ?_⟩
    have := congrArg FrequencyTable.toObject hEq
    rw [this]
    simp [FrequencyTable.toObject, List.map_map, Function.comp_def]

theorem replay_tallies_ordinary_witness :
    ((objectEntries ((Js.replay emptySurveyData.toJs sampleResponses).table
        QuestionId.age)).map Prod.fst).Nodup ∧
    ((objectEntries ((Js.replay emptySurveyData.toJs sampleResponses).table
        QuestionId.age)).map Prod.fst).Pairwise
          (fun a b =>
            (sampleResponses.map fun formData => formData.get QuestionId.age).indexOf a <
              (sampleResponses.map fun formData => formData.get QuestionId.age).indexOf b) ∧
    (objectEntries ((Js.replay emptySurveyData.toJs sampleResponses).table QuestionId.age)).map
        Prod.fst = ["26-35", "18-25", "36-45", "46-55", "56+"] :=
  have h := replay_tallies_ordinary sampleResponses QuestionId.age (by decide) (by decide)
  ⟨h.1, (h.2.2.2 (by decide)).1, by decide⟩

/-- Counterexample to C3 as stated: after the answers `10`, `2`, `x`, `1` to the age question
the table lists the labels in the order `1`, `2`, `10`, `x`, not in the order in which they
were first answered; and after the answer `__proto__` the table lists no label at all. -/
theorem replay_index_order :
    (objectEntries ((Js.replay emptySurveyData.toJs
        [Response.mk "10" "a" "b" "c" "d", Response.mk "2" "a" "b" "c" "d",
          Response.mk "x" "a" "b" "c" "d", Response.mk "1" "a" "b" "c" "d"]).table
        QuestionId.age)).map Prod.fst = ["1", "2", "10", "x"] ∧
    (objectEntries ((Js.replay emptySurveyData.toJs
        [Response.mk "10" "a" "b" "c" "d", Response.mk "2" "a" "b" "c" "d",
          Response.mk "x" "a" "b" "c" "d", Response.mk "1" "a" "b" "c" "d"]).table
        QuestionId.age)).map Prod.fst ≠ ["10", "2", "x", "1"] ∧
    (objectEntries ((Js.replay emptySurveyData.toJs
        [Response.mk "__proto__" "a" "b" "c" "d"]).table QuestionId.age)).map Prod.fst = [] := by
  decide

/-- C9 (amended): in every state reached from the empty state by a sequence of at most
`2 ^ 53` calls of `updateSurveyData` whose labels for a question are not names of members of
`Object.prototype`, every value of the table of that question is a number and these numbers
sum to `totalResponses`. -/
theorem total_eq_totalResponses_ordinary (responses : List Response) (key : QuestionId)
    (hLabels : ∀ formData ∈ responses, formData.get key ∉ objectPrototypeNames)
    (hLength : responses.length ≤ 9007199254740992) :
    ((Js.replay emptySurveyData.toJs responses).table key).total =
      some (Js.replay emptySurveyData.toJs responses).totalResponses := by
  have hTotal := js_totalResponses_replay responses emptySurveyData.toJs (by decide)
    (by
      have : emptySurveyData.toJs.totalResponses = 0 := rfl
      rw [this]
      exact_mod_cast (by omega : 0 + responses.length ≤ 9007199254740992))
  rw [replay_toObject responses key hLabels hLength, total_toObject, hTotal,
    total_eq_totalResponses, totalResponses_replay]
  rfl

theorem total_eq_totalResponses_ordinary_witness :
    ((Js.replay emptySurveyData.toJs sampleResponses).table QuestionId.concerns).total =
      some (Js.replay emptySurveyData.toJs sampleResponses).totalResponses :=
  total_eq_totalResponses_ordinary sampleResponses QuestionId.concerns (by decide) (by decide)

/-- Counterexample to C9 as stated: after one response whose age label is `__proto__` the age
table is still empty, so its counts sum to 0, while `totalResponses` is 1. -/
theorem total_ne_totalResponses_inherited :
    (Js.replay emptySurveyData.toJs [Response.mk "__proto__" "a" "b" "c" "d"]).age = [] ∧
    ((Js.replay emptySurveyData.toJs [Response.mk "__proto__" "a" "b" "c" "d"]).table
      QuestionId.age).total = some 0 ∧
    (Js.replay emptySurveyData.toJs
      [Response.mk "__proto__" "a" "b" "c" "d"]).totalResponses = 1 ∧
    ((Js.replay emptySurveyData.toJs [Response.mk "__proto__" "a" "b" "c" "d"]).table
        QuestionId.age).total ≠
      some (Js.replay emptySurveyData.toJs
        [Response.mk "__proto__" "a" "b" "c" "d"]).totalResponses := by
  decide

/-- Counterexample to C5 as stated: with no canvas element `drawChart` returns before the
emptiness test and draws nothing, although the table of the chart has no labels. -/
theorem drawChart_no_canvas :
    (emptySurveyData.table QuestionId.age).keys = [] ∧
    drawChart emptySurveyData none QuestionId.age.chartId = some Drawing.nothing ∧
    ¬ ∃ width height : Nat,
      drawChart emptySurveyData none QuestionId.age.chartId =
        some (Drawing.noDataMessage width height) := by
  refine ⟨by decide, by decide, ?_⟩
  rintro ⟨width, height, h⟩
  have hNothing : drawChart emptySurveyData none QuestionId.age.chartId =
      some Drawing.nothing := by decide
  rw [hNothing] at h
  exact absurd h (by simp)
